import Mathlib

/-!
Verification of the kernel_samples repository: a shallow embedding of the
scheduler, the synchronization primitives, the mailbox, the host image
builder and the filesystem, together with theorems settling the
specification's claims about them.
-/

namespace KernelSamples

/-!
### Scheduler model (src/scheduler/scheduler.c)

Tasks are identified by natural numbers.  The ready ring (a circular
doubly-linked list of PCBs in the source) is modelled as the list of task
ids obtained by following the next pointers starting from current_running:
the head of the list is current_running and the last element is
current_running->previous.  A wait queue (singly linked, NULL terminated)
is the list of task ids from head to tail.
-/

/-- Task states from the source (STATUS_READY, STATUS_BLOCKED,
STATUS_EXITED; the two FIRST_TIME states play no role in the claims). -/
inductive TaskStatus where
  | ready
  | blocked
  | exited
deriving DecidableEq

/-- Scheduler state: the ready ring viewed from current_running plus the
per-task state field. -/
structure SchedState where
  ring : List Nat
  status : Nat → TaskStatus

/-- Embedding of unblock (scheduler.c): remove the head of the wait queue,
mark it READY and insert it immediately before current_running in the
ring, i.e. at the end of the ring as viewed from current_running.  On an
empty queue the C code would dereference NULL; it is never called that
way, and the model returns the state unchanged. -/
def unblock (q : List Nat) (s : SchedState) : List Nat × SchedState :=
  match q with
  | [] => ([], s)
  | t :: rest =>
    (rest, { ring := s.ring ++ [t],
             status := fun i => if i = t then TaskStatus.ready else s.status i })

/-- Embedding of scheduler (scheduler.c): a blocked or exited current task
is spliced out of the ring and its successor becomes current_running;
otherwise current_running advances one step along next, i.e. the ring
rotates left. -/
def scheduler (s : SchedState) : SchedState :=
  match s.ring with
  | [] => s
  | c :: rest =>
    match s.status c with
    | TaskStatus.ready => { s with ring := rest ++ [c] }
    | _ => { s with ring := rest }

/-- Embedding of block (scheduler.c): the current task is marked BLOCKED,
appended at the tail of the wait queue, and the scheduler runs. -/
def block (q : List Nat) (s : SchedState) : List Nat × SchedState :=
  match s.ring with
  | [] => (q, s)
  | c :: rest =>
    (q ++ [c],
     scheduler { ring := c :: rest,
                 status := fun i => if i = c then TaskStatus.blocked else s.status i })

/-!
### Synchronization primitives (src/sync/thread.c)
-/

/-- Semaphore state: a signed counter and the wait queue of blocked task
ids (struct semaphore of the sync subsystem). -/
structure semaphore_t where
  counter : Int
  waiting : List Nat
deriving DecidableEq

/-- One semaphore call: an up, or a down performed by task t. -/
inductive SemOp where
  | up
  | down (t : Nat)
deriving DecidableEq

/-- Embedding of semaphore_up and semaphore_down (thread.c), projected to
the semaphore's own state.  up increments the counter and, only when the
post-increment counter is nonnegative and the queue is non-empty, unblocks
the queue head (unblock removes the head of the wait queue).  down
decrements the counter and, when the post-decrement counter is negative,
blocks the calling task at the tail of the queue (block appends at the
tail). -/
def sem_step (s : semaphore_t) : SemOp → semaphore_t
  | SemOp.up =>
    let c := s.counter + 1
    if 0 ≤ c then
      if s.waiting ≠ [] then { counter := c, waiting := s.waiting.tail }
      else { s with counter := c }
    else { s with counter := c }
  | SemOp.down t =>
    let c := s.counter - 1
    if c < 0 then { counter := c, waiting := s.waiting ++ [t] }
    else { s with counter := c }

/-- Running a sequence of semaphore calls from an initial state. -/
def sem_run (s : semaphore_t) (ops : List SemOp) : semaphore_t :=
  ops.foldl sem_step s

/-- Lock status (LOCKED / UNLOCKED in thread.h). -/
inductive LockStatus where
  | locked
  | unlocked
deriving DecidableEq

/-- Lock state: a status and the wait queue of blocked task ids. -/
structure lock_t where
  status : LockStatus
  waiting : List Nat

/-- Embedding of lock_release (thread.c): with an empty wait queue the lock
becomes UNLOCKED; otherwise one waiter is unblocked via the scheduler's
unblock and the status field is not touched. -/
def lock_release (l : lock_t) (k : SchedState) : lock_t × SchedState :=
  if l.waiting = [] then ({ l with status := LockStatus.unlocked }, k)
  else
    let r := unblock l.waiting k
    ({ l with waiting := r.1 }, r.2)

/-- Embedding of lock_acquire_helper (thread.c): take the lock when
UNLOCKED, otherwise block the current task on the lock's wait queue. -/
def lock_acquire_helper (l : lock_t) (k : SchedState) : lock_t × SchedState :=
  if l.status = LockStatus.unlocked then ({ l with status := LockStatus.locked }, k)
  else
    let r := block l.waiting k
    ({ l with waiting := r.1 }, r.2)

/-!
### Mailbox model (src/mailbox/mbox.c)

The message type msg_t (mbox.h is not part of src) is an int size field
followed by the payload bytes; mbox.c uses sizeof(m), the size of a
msg_t pointer, as the header length, which on the 32-bit x86 target is 4
bytes, the same as the size field.  The circular buffer is modelled as a
function from index to byte.
-/

/-- Modelled from the spec: mbox.h is missing from src; BUFFER_SIZE is 256
(testable-properties scenario 2 of the spec). -/
def BUFFER_SIZE : Nat := 256

/-- Modelled from the spec: sizeof(m) for msg_t *m on the 32-bit x86
target, used by mbox_send and mbox_recv as the message-header length. -/
def sizeof_msg_ptr : Nat := 4

/-- A message: an int size field and the payload bytes. -/
structure msg_t where
  size : Nat
  body : List Nat
deriving DecidableEq

/-- Little-endian byte image of a 32-bit int (x86). -/
def encodeLE4 (n : Nat) : List Nat :=
  [n % 256, n / 256 % 256, n / 65536 % 256, n / 16777216 % 256]

/-- Reading a 32-bit little-endian int back from its bytes. -/
def decodeLE4 (l : List Nat) : Nat :=
  l.getD 0 0 + 256 * l.getD 1 0 + 65536 * l.getD 2 0 + 16777216 * l.getD 3 0

/-- In-memory byte image of a msg_t: the size field followed by the body. -/
def msg_bytes (m : msg_t) : List Nat :=
  encodeLE4 m.size ++ m.body

/-- Mailbox slot state (fields as used by mbox.c: used, count, head, tail
and the circular byte buffer).  The slot's lock and two condition
variables govern blocking only and carry no data. -/
structure mbox_t where
  used : Int
  count : Int
  head : Nat
  tail : Nat
  buffer : Nat → Nat

/-- Embedding of space_available (mbox.c). -/
def space_available (q : mbox_t) : Nat :=
  if q.tail = q.head ∧ q.count ≠ 0 then 0
  else if q.head < q.tail then q.tail - q.head
  else q.tail + BUFFER_SIZE - q.head

/-- The byte-copy loop of mbox_send: write the bytes one after another at
positions start, start+1, ... reduced modulo BUFFER_SIZE. -/
def buf_write (b : Nat → Nat) (start : Nat) : List Nat → (Nat → Nat)
  | [] => b
  | x :: rest =>
    buf_write (fun p => if p = start % BUFFER_SIZE then x else b p) (start + 1) rest

/-- The byte-copy loop of mbox_recv: read the given number of bytes from
positions start, start+1, ... reduced modulo BUFFER_SIZE. -/
def buf_read (b : Nat → Nat) (start : Nat) : Nat → List Nat
  | 0 => []
  | len + 1 => b (start % BUFFER_SIZE) :: buf_read b (start + 1) len

/-- Embedding of mbox_send (mbox.c): when the header plus payload does not
fit in the free bytes the caller blocks on moreSpace, modelled as none;
otherwise the first sizeof(m) + m->size bytes of the message image are
copied into the ring at head, head advances modulo BUFFER_SIZE and count
is incremented. -/
def mbox_send (q : mbox_t) (m : msg_t) : Option mbox_t :=
  if space_available q < sizeof_msg_ptr + m.size then none
  else
    let size := sizeof_msg_ptr + m.size
    some { q with
      buffer := buf_write q.buffer q.head ((msg_bytes m).take size),
      head := (q.head + size) % BUFFER_SIZE,
      count := q.count + 1 }

/-- Embedding of mbox_recv (mbox.c): with no message in the slot the
caller blocks on moreData, modelled as none; otherwise the first sizeof(m)
bytes at tail are read to learn the payload size, the whole record of
sizeof(m) + size bytes is read into the destination message, tail
advances modulo BUFFER_SIZE and count is decremented. -/
def mbox_recv (q : mbox_t) : Option (mbox_t × msg_t) :=
  if q.count ≤ 0 then none
  else
    let start := q.tail
    let msize := decodeLE4 (buf_read q.buffer start sizeof_msg_ptr)
    let size := sizeof_msg_ptr + msize
    let all := buf_read q.buffer start size
    some ({ q with tail := (start + size) % BUFFER_SIZE, count := q.count - 1 },
          { size := decodeLE4 (all.take sizeof_msg_ptr), body := all.drop sizeof_msg_ptr })

/-!
### Image builder model (the createimage host tool in src)
-/

/-- Embedding of the final fseek/fwrite pair of main: overwrite the bytes
of the output file at the given offset. -/
def overwrite_at (l : List Nat) (pos : Nat) (bytes : List Nat) : List Nat :=
  l.take pos ++ bytes ++ l.drop (pos + bytes.length)

/-- Embedding of main (createimage): write the bootblock segments and the
kernel segments, pad the kernel with zero bytes to a multiple of
SECTOR_SIZE = 512 when needed, compute os_size = kernel sectors rounded
up, then seek to OS_SIZE_LOC = 2 and fwrite the sizeof(os_size) = 4 bytes
of the int os_size (the host is little-endian x86).  The kernel is given
as the list of its ELF segment byte lists; kernel_size is the sum of
their p_memsz lengths. -/
def createimage (boot : List Nat) (kernel_segments : List (List Nat)) : List Nat :=
  let kernel := kernel_segments.flatten
  let kernel_size := kernel.length
  let pad :=
    if kernel_size % 512 ≠ 0 then List.replicate (512 - kernel_size % 512) 0 else []
  let os_size := kernel_size / 512 + (if kernel_size % 512 ≠ 0 then 1 else 0)
  overwrite_at (boot ++ kernel ++ pad) 2 (encodeLE4 os_size)

/-!
### Filesystem model (src/filesystem/fs.c)

The disk is a function from block number and byte offset to byte.  The C
int is modelled as Int; every division and remainder uses Int.tdiv and
Int.tmod, the truncating semantics of C.  The headers inode.h, fs_error.h
and block.h are not part of src; every constant taken from the spec
instead of a header is marked as such.
-/

/-- FSE_OK is 0 (spec, error codes). -/
def FSE_OK : Int := 0

/-- Modelled from the spec: fs_error.h is not under src; the error codes
are distinct negative ints whose exact values are not observable in the
claims. -/
def FSE_ERROR : Int := -1

/-- Modelled from the spec: see FSE_ERROR. -/
def FSE_INVALIDMODE : Int := -2

/-- Modelled from the spec: see FSE_ERROR. -/
def FSE_NOTEXIST : Int := -3

/-- Modelled from the spec: see FSE_ERROR. -/
def FSE_INVALIDNAME : Int := -4

/-- Modelled from the spec: see FSE_ERROR. -/
def FSE_NOMOREINODES : Int := -5

/-- Modelled from the spec: see FSE_ERROR. -/
def FSE_FULL : Int := -6

/-- Modelled from the spec: see FSE_ERROR. -/
def FSE_INODETABLEFULL : Int := -7

/-- Modelled from the spec: see FSE_ERROR. -/
def FSE_DIRISFILE : Int := -8

/-- Modelled from the spec: see FSE_ERROR. -/
def FSE_EOF : Int := -9

/-- File modes (spec, external interfaces). -/
def MODE_UNUSED : Nat := 0

/-- File modes (spec, external interfaces). -/
def MODE_RDONLY : Nat := 1

/-- File modes (spec, external interfaces). -/
def MODE_WRONLY : Nat := 2

/-- File modes (spec, external interfaces). -/
def MODE_RDWR : Nat := 3

/-- File modes (spec, external interfaces). -/
def MODE_CREAT : Nat := 4

/-- Seek whence values (spec, external interfaces). -/
def SEEK_SET : Int := 0

/-- Seek whence values (spec, external interfaces). -/
def SEEK_CUR : Int := 1

/-- Seek whence values (spec, external interfaces). -/
def SEEK_END : Int := 2

/-- Modelled from the spec: inode.h is not under src; with
max_filesize = 4096 and BLOCK_SIZE = 512 the inode holds 8 direct block
slots. -/
def INODE_NDIRECT : Nat := 8

/-- On-disk inode record (struct disk_inode): type, size in bytes, link
count and the direct block slots, -1 meaning unallocated. -/
structure disk_inode where
  itype : Int
  size : Int
  nlinks : Int
  direct : List Int

/-- In-memory inode (struct mem_inode): the disk inode plus open_count,
pos, dirty and inode_num. -/
structure mem_inode where
  d_inode : disk_inode
  open_count : Int
  pos : Int
  dirty : Int
  inode_num : Int

/-- The superblock (struct disk_superblock). -/
structure superblock_t where
  ninodes : Int
  ndata_blks : Int
  max_filesize : Int
  root_inode : Int

/-- One slot of the per-task open-file table: a mode and an inode index. -/
structure fd_entry where
  mode : Nat
  idx : Int

/-- The filesystem-visible state: the disk, the in-memory inode array,
the two in-memory bitmaps, the superblock, SUPER_BLOCK_START, the
FS_BLOCKS compile-time constant of block.h (not under src, carried as a
state field) and the open-file table of current_running. -/
structure FsState where
  disk : Int → Int → Nat
  inodes : Int → mem_inode
  inode_bmap : List Nat
  dblk_bmap : List Nat
  super : superblock_t
  sbs : Int
  fs_blocks : Int
  filedes : Int → fd_entry

/-- Embedding of block_read_part of the block device: read len bytes of
the given block starting at the given offset. -/
def block_read_part (d : Int → Int → Nat) (blk off len : Int) : List Nat :=
  (List.range len.toNat).map fun (i : Nat) => d blk (off + (i : Int))

/-- Embedding of block_modify of the block device: write len bytes of buf
into the given block at the given offset. -/
def block_modify (d : Int → Int → Nat) (blk off : Int) (buf : List Nat) (len : Int) :
    Int → Int → Nat :=
  fun b o => if b = blk ∧ off ≤ o ∧ o < off + len then buf.getD (o - off).toNat 0 else d b o

/-- Embedding of save_bitmaps (fs.c): persist the two 256-byte bitmaps to
the blocks after the superblock. -/
def save_bitmaps (s : FsState) : FsState :=
  let d1 := block_modify s.disk (s.sbs + 1) 0 s.inode_bmap 256
  let d2 := block_modify d1 (s.sbs + 2) 0 s.dblk_bmap 256
  { s with disk := d2 }

/-- Embedding of load_bitmaps (fs.c): reload the two 256-byte bitmaps
from disk. -/
def load_bitmaps (s : FsState) : FsState :=
  { s with inode_bmap := block_read_part s.disk (s.sbs + 1) 0 256,
           dblk_bmap := block_read_part s.disk (s.sbs + 2) 0 256 }

/-- One byte of get_free_entry: the first-zero-bit cascade of fs.c, MSB
first; gives the bit index inside the byte and the byte with that bit
set, or none when all eight bits are set.  An unsigned char other than
0xff always has a zero bit, so in C the none case loops on. -/
def gfe_byte (b : Nat) : Option (Nat × Nat) :=
  if b &&& 128 = 0 then some (0, b ||| 128)
  else if b &&& 64 = 0 then some (1, b ||| 64)
  else if b &&& 32 = 0 then some (2, b ||| 32)
  else if b &&& 16 = 0 then some (3, b ||| 16)
  else if b &&& 8 = 0 then some (4, b ||| 8)
  else if b &&& 4 = 0 then some (5, b ||| 4)
  else if b &&& 2 = 0 then some (6, b ||| 2)
  else if b &&& 1 = 0 then some (7, b ||| 1)
  else none

/-- The scan loop of get_free_entry over the BITMAP_ENTRIES / 8 = 32
bytes, the remaining iteration count as fuel. -/
def gfe_loop (bm : List Nat) (i : Nat) : Nat → Int × List Nat
  | 0 => (-1, bm)
  | fuel + 1 =>
    let b := bm.getD i 0
    if b = 255 then gfe_loop bm (i + 1) fuel
    else
      match gfe_byte b with
      | some kv => (((8 * i + kv.1 : Nat) : Int), bm.set i kv.2)
      | none => gfe_loop bm (i + 1) fuel

/-- Embedding of get_free_entry (fs.c): search the bitmap for the first
zero bit, MSB first within each byte; set it and return its index, or
return -1 leaving the bitmap unchanged when every entry is taken. -/
def get_free_entry (bm : List Nat) : Int × List Nat :=
  gfe_loop bm 0 32

/-- The switch of free_bitmap_entry: the complement mask for entry % 8.
The C switch has no case for a negative remainder and then changes
nothing. -/
def clear_mask (r : Int) : Option Nat :=
  if r = 0 then some 127
  else if r = 1 then some 191
  else if r = 2 then some 223
  else if r = 3 then some 239
  else if r = 4 then some 247
  else if r = 5 then some 251
  else if r = 6 then some 253
  else if r = 7 then some 254
  else none

/-- Embedding of free_bitmap_entry (fs.c): entries at or beyond
BITMAP_ENTRIES = 256 give -1; otherwise clear bit entry % 8 of byte
entry / 8 with C truncating division (for the -1 of a full bitmap the
byte index truncates to 0, no switch case matches -1 % 8 = -1, and the
bitmap is unchanged). -/
def free_bitmap_entry (entry : Int) (bm : List Nat) : Int × List Nat :=
  if 256 ≤ entry then (-1, bm)
  else
    let idx := (Int.tdiv entry 8).toNat
    match clear_mask (Int.tmod entry 8) with
    | some m => (0, bm.set idx (bm.getD idx 0 &&& m))
    | none => (0, bm)

/-- Embedding of ino2blk (fs.c): superblock + 2 bitmap blocks + the block
holding the inode (16 inodes of 32 bytes per 512-byte block). -/
def ino2blk (sbs ino : Int) : Int :=
  if ino < 0 ∨ 512 < ino then -1
  else sbs + 2 + Int.tdiv ino 16 + 1

/-- Embedding of idx2blk (fs.c): superblock + 2 bitmap blocks + 32 inode
blocks + index; indices beyond FS_BLOCKS - 32 - 2 - 1 give -1. -/
def idx2blk (sbs fs_blocks index : Int) : Int :=
  if index < 0 ∨ fs_blocks - 32 - 2 - 1 < index then -1
  else sbs + 2 + 32 + index

/-- Embedding of save_inode (fs.c): write the disk_inode record into its
inode block at byte offset (id % 16) * 32.  The byte layout of struct
disk_inode is fixed by inode.h, which is not under src, so the record
image is a parameter ser of the model, with sizeof = (ser dnode).length;
none of the claims observe these bytes. -/
def save_inode (ser : disk_inode → List Nat) (id : Int) (s : FsState) : FsState :=
  let bytes := ser (s.inodes id).d_inode
  let d1 := block_modify s.disk (ino2blk s.sbs id) (Int.tmod id 16 * 32) bytes bytes.length
  { s with disk := d1 }

/-- The direct-slot loop of resize_inode with the remaining slot count as
fuel (INODE_NDIRECT iterations from slot 0): slots below blocks are
allocated from the data bitmap when they hold -1, with an early FSE_FULL
return (third component false) when the bitmap is full or the new entry
is at or past ndata_blks; slots from blocks on are freed in the bitmap
when allocated, without resetting the slot to -1, as in the C code. -/
def resize_loop (ndata blocks : Int) : Nat → Nat → List Int → List Nat →
    List Int × List Nat × Bool
  | _, 0, direct, bmap => (direct, bmap, true)
  | x, fuel + 1, direct, bmap =>
    if (x : Int) < blocks then
      if direct.getD x 0 = -1 then
        let e := get_free_entry bmap
        let direct2 := direct.set x e.1
        if e.1 = -1 ∨ ndata ≤ e.1 then (direct2, e.2, false)
        else resize_loop ndata blocks (x + 1) fuel direct2 e.2
      else resize_loop ndata blocks (x + 1) fuel direct bmap
    else
      if direct.getD x 0 ≠ -1 then
        resize_loop ndata blocks (x + 1) fuel direct
          (free_bitmap_entry (direct.getD x 0) bmap).2
      else resize_loop ndata blocks (x + 1) fuel direct bmap

/-- Embedding of resize_inode (fs.c): refuse sizes beyond max_filesize,
reload the bitmaps from disk, let blocks = new_size / BLOCK_SIZE + 1,
allocate or free direct slots, then store the new size and persist the
bitmaps and the inode.  On FSE_FULL the partial mutations of the loop
remain in place, as in the C code. -/
def resize_inode (ser : disk_inode → List Nat) (id new_size : Int) (s : FsState) :
    FsState × Int :=
  if s.super.max_filesize < new_size then (s, FSE_INODETABLEFULL)
  else
    let s1 := load_bitmaps s
    let blocks := Int.tdiv new_size 512 + 1
    let r := resize_loop s1.super.ndata_blks blocks 0 INODE_NDIRECT
      (s1.inodes id).d_inode.direct s1.dblk_bmap
    let s2a := { s1 with dblk_bmap := r.2.1 }
    let s2 := { s2a with inodes := (fun j => if j = id then
        { s1.inodes j with d_inode := { (s1.inodes j).d_inode with direct := r.1 } }
        else s1.inodes j) }
    if r.2.2 = false then (s2, FSE_FULL)
    else
      let s3 := { s2 with inodes := (fun j => if j = id then
        { s2.inodes j with d_inode := { (s2.inodes j).d_inode with size := new_size } }
        else s2.inodes j) }
      (save_inode ser id (save_bitmaps s3), FSE_OK)

/-- The block loop of db_write with fuel finish_block - start_block: loop
variable x and byte counter written as in the C code; each iteration
writes one full or partial block with block_modify at the block of direct
slot x. -/
def db_write_loop (sbs fsb : Int) (direct : List Int) (buf : List Nat)
    (start_pos finish_pos start_block finish_block isize : Int) :
    Nat → Int → Int → (Int → Int → Nat) → (Int → Int → Nat) × Int
  | 0, _, written, d => (d, written)
  | fuel + 1, x, written, d =>
    if x < finish_block ∧ start_pos + written < isize then
      let blk := idx2blk sbs fsb (direct.getD x.toNat 0)
      if x = start_block then
        let inn := if x + 1 = finish_block then finish_pos - start_pos
          else 512 - Int.tmod start_pos 512
        db_write_loop sbs fsb direct buf start_pos finish_pos start_block finish_block
          isize fuel (x + 1) (written + inn)
          (block_modify d blk (Int.tmod start_pos 512) (buf.drop written.toNat) inn)
      else if x + 1 = finish_block then
        let inn := finish_pos - start_pos - written
        db_write_loop sbs fsb direct buf start_pos finish_pos start_block finish_block
          isize fuel (x + 1) (written + inn)
          (block_modify d blk 0 (buf.drop written.toNat) inn)
      else
        db_write_loop sbs fsb direct buf start_pos finish_pos start_block finish_block
          isize fuel (x + 1) (written + 512)
          (block_modify d blk 0 (buf.drop written.toNat) 512)
    else (d, written)

/-- Embedding of db_write (fs.c): compute the block range (finish_block
comes from the unclamped finish position), clamp the finish position to
max_filesize, resize the inode, then copy the buffer block by block;
returns the byte count written, or the resize error with the partial
resize state. -/
def db_write (ser : disk_inode → List Nat) (id : Int) (buf : List Nat)
    (size start_pos : Int) (s : FsState) : FsState × Int :=
  let start_block := Int.tdiv start_pos 512
  let finish_pos0 := size + start_pos
  let finish_block := Int.tdiv finish_pos0 512 + 1
  let finish_pos := if s.super.max_filesize < finish_pos0 then s.super.max_filesize
    else finish_pos0
  let r := resize_inode ser id finish_pos s
  if r.2 ≠ FSE_OK then r
  else
    let i := r.1.inodes id
    let w := db_write_loop r.1.sbs r.1.fs_blocks i.d_inode.direct buf start_pos finish_pos
      start_block finish_block i.d_inode.size ((finish_block - start_block).toNat)
      start_block 0 r.1.disk
    ({ r.1 with disk := w.1 }, w.2)

/-- The block loop of db_read with fuel finish_block - start_block: reads
one full or partial block per iteration with block_read_part, appending
to the caller's buffer. -/
def db_read_loop (sbs fsb : Int) (direct : List Int)
    (start_pos finish_pos start_block finish_block isize : Int) (d : Int → Int → Nat) :
    Nat → Int → Int → List Nat → List Nat × Int
  | 0, _, rd, acc => (acc, rd)
  | fuel + 1, x, rd, acc =>
    if x < finish_block ∧ rd + start_pos < isize then
      let blk := idx2blk sbs fsb (direct.getD x.toNat 0)
      if x = start_block then
        let inn := if x + 1 = finish_block then finish_pos - start_pos
          else 512 - Int.tmod start_pos 512
        db_read_loop sbs fsb direct start_pos finish_pos start_block finish_block isize d
          fuel (x + 1) (rd + inn)
          (acc ++ block_read_part d blk (Int.tmod start_pos 512) inn)
      else if x + 1 = finish_block then
        let inn := finish_pos - start_pos - rd
        db_read_loop sbs fsb direct start_pos finish_pos start_block finish_block isize d
          fuel (x + 1) (rd + inn) (acc ++ block_read_part d blk 0 inn)
      else
        db_read_loop sbs fsb direct start_pos finish_pos start_block finish_block isize d
          fuel (x + 1) (rd + 512) (acc ++ block_read_part d blk 0 512)
    else (acc, rd)

/-- Embedding of db_read (fs.c): clamp the finish position to the inode
size, then read block by block; gives the bytes stored into the caller's
buffer and the C return value (the byte count read, or FSE_ERROR when the
clamped finish position is negative). -/
def db_read (id size start_pos : Int) (s : FsState) : List Nat × Int :=
  let i := s.inodes id
  let finish_pos0 := size + start_pos
  let finish_pos := if i.d_inode.size < finish_pos0 then i.d_inode.size else finish_pos0
  let start_block := Int.tdiv start_pos 512
  let finish_block := Int.tdiv finish_pos 512 + 1
  if finish_pos < 0 then ([], FSE_ERROR)
  else
    db_read_loop s.sbs s.fs_blocks i.d_inode.direct start_pos finish_pos start_block
      finish_block i.d_inode.size s.disk ((finish_block - start_block).toNat)
      start_block 0 []

/-- The tail of fs_lseek after the whence switch computed pos, with the
quirks of the C code kept: the extension branch rejects any mode
containing the MODE_RDONLY bit (which MODE_RDWR does) with FSE_EOF; it
passes offset rather than the computed pos to resize_inode; and it
inverts the resize result, so a successful resize returns FSE_FULL
without updating pos while a failed resize falls through to set pos and
return FSE_OK. -/
def fs_lseek_setpos (ser : disk_inode → List Nat) (fd offset pos : Int) (s : FsState) :
    FsState × Int :=
  let id := (s.filedes fd).idx
  let i := s.inodes id
  if i.d_inode.size < pos then
    if 0 < (s.filedes fd).mode &&& MODE_RDONLY then (s, FSE_EOF)
    else if s.super.max_filesize < pos then (s, FSE_FULL)
    else
      let r := resize_inode ser id offset s
      if r.2 = 0 then (r.1, FSE_FULL)
      else
        ({ r.1 with inodes := (fun j => if j = id then { r.1.inodes j with pos := pos }
            else r.1.inodes j) }, FSE_OK)
  else
    ({ s with inodes := (fun j => if j = id then { s.inodes j with pos := pos }
        else s.inodes j) }, FSE_OK)

/-- Embedding of fs_lseek (fs.c): unused descriptors and unknown whence
values give FSE_INVALIDMODE; otherwise the switch computes pos from
SEEK_SET, SEEK_CUR or SEEK_END and falls into the shared tail. -/
def fs_lseek (ser : disk_inode → List Nat) (fd offset whence : Int) (s : FsState) :
    FsState × Int :=
  if (s.filedes fd).mode = MODE_UNUSED then (s, FSE_INVALIDMODE)
  else
    let id := (s.filedes fd).idx
    let i := s.inodes id
    if whence = SEEK_SET then fs_lseek_setpos ser fd offset offset s
    else if whence = SEEK_CUR then fs_lseek_setpos ser fd offset (offset + i.pos) s
    else if whence = SEEK_END then
      fs_lseek_setpos ser fd offset (offset + i.d_inode.size) s
    else (s, FSE_INVALIDMODE)

/-- Embedding of fs_read (fs.c): the mode check is
mode & (MODE_RDONLY | MODE_RDWR); then db_read from the inode's pos and a
SEEK_CUR fs_lseek by the byte count read.  Returns the final state, the C
return value and the bytes stored into the caller's buffer. -/
def fs_read (ser : disk_inode → List Nat) (fd size : Int) (s : FsState) :
    FsState × Int × List Nat :=
  if (s.filedes fd).mode &&& (MODE_RDONLY ||| MODE_RDWR) = 0 then
    (s, FSE_INVALIDMODE, [])
  else
    let id := (s.filedes fd).idx
    let r := db_read id size (s.inodes id).pos s
    if r.2 < 0 then (s, r.2, r.1)
    else
      let k := fs_lseek ser fd r.2 SEEK_CUR s
      if k.2 ≠ FSE_OK then (k.1, k.2, r.1)
      else (k.1, r.2, r.1)

/-- Embedding of fs_write (fs.c): the mode check is
mode & (MODE_WRONLY | MODE_RDWR); then db_write at the inode's pos and a
SEEK_CUR fs_lseek by the byte count written. -/
def fs_write (ser : disk_inode → List Nat) (fd : Int) (buf : List Nat) (size : Int)
    (s : FsState) : FsState × Int :=
  if (s.filedes fd).mode &&& (MODE_WRONLY ||| MODE_RDWR) = 0 then (s, FSE_INVALIDMODE)
  else
    let id := (s.filedes fd).idx
    let r := db_write ser id buf size (s.inodes id).pos s
    if r.2 < 0 then r
    else
      let k := fs_lseek ser fd r.2 SEEK_CUR r.1
      if k.2 ≠ FSE_OK then k
      else (k.1, r.2)

/-- Embedding of fs_close (fs.c): an unused descriptor returns FSE_OK
with nothing touched; otherwise pos is reset, open_count decremented and
the descriptor slot cleared. -/
def fs_close (fd : Int) (s : FsState) : FsState × Int :=
  if (s.filedes fd).mode = MODE_UNUSED then (s, FSE_OK)
  else
    let id := (s.filedes fd).idx
    let s1 := { s with inodes := (fun j => if j = id then
      { s.inodes j with pos := 0, open_count := (s.inodes j).open_count - 1 }
      else s.inodes j) }
    ({ s1 with filedes := (fun g => if g = fd then { mode := MODE_UNUSED, idx := -1 }
        else s1.filedes g) }, FSE_OK)

/-- The bitmap byte values seen while the first byte fills up MSB first:
after m allocations from an all-free byte its value is gfe_mask m. -/
def gfe_mask : Nat → Nat
  | 0 => 0
  | 1 => 128
  | 2 => 192
  | 3 => 224
  | 4 => 240
  | 5 => 248
  | 6 => 252
  | 7 => 254
  | _ => 255

/-- A concrete filesystem state for the concrete theorems: descriptor 0
open with the given mode on inode 5, an empty file (size 0, every direct
slot -1, pos 0), an all-zero disk (hence all-free bitmaps), and the
superblock a mounted system has (ninodes 512, max_filesize 4096,
ndata_blks = FS_BLOCKS - 35 with FS_BLOCKS = 512). -/
def sampleInode : mem_inode :=
  { d_inode := { itype := 0, size := 0, nlinks := 1, direct := List.replicate 8 (-1) },
    open_count := 1, pos := 0, dirty := 0, inode_num := 5 }

/-- The filesystem state of sampleFs continued: see sampleInode for the
single shared in-memory inode value. -/
def sampleFs (mode : Nat) : FsState :=
  { disk := fun _ _ => 0,
    inodes := fun _ => sampleInode,
    inode_bmap := List.replicate 256 0,
    dblk_bmap := List.replicate 256 0,
    super := { ninodes := 512, ndata_blks := 477, max_filesize := 4096, root_inode := 0 },
    sbs := 2,
    fs_blocks := 512,
    filedes := fun _ => { mode := mode, idx := 5 } }

/-- A fixed disk_inode serialization for the concrete theorems; inode.h
(not under src) fixes the real layout, and no claim reads these bytes
back. -/
def ser0 : disk_inode → List Nat := fun _ => List.replicate 32 0

/-- An in-memory inode for a NON-empty file: one byte stored in data
block 1 (direct slot 0 holds 1, the rest are free), pos 0. -/
def sampleInode2 : mem_inode :=
  { d_inode := { itype := 0, size := 1, nlinks := 1, direct := 1 :: List.replicate 7 (-1) },
    open_count := 1, pos := 0, dirty := 0, inode_num := 5 }

/-- A concrete filesystem state with a partly used data bitmap and a
non-empty open file: data blocks 0 (say, the root directory) and 1 (the
file's block) are taken, so byte 0 of the on-disk data bitmap block
sbs + 2 = 4 is 192; descriptor 0 is open read-write on inode 5. -/
def sampleFs2 : FsState :=
  { disk := (fun b o => if b = 4 ∧ o = 0 then 192 else 0),
    inodes := fun _ => sampleInode2,
    inode_bmap := List.replicate 256 0,
    dblk_bmap := (List.replicate 256 0).set 0 192,
    super := { ninodes := 512, ndata_blks := 477, max_filesize := 4096, root_inode := 0 },
    sbs := 2,
    fs_blocks := 512,
    filedes := fun _ => { mode := MODE_RDWR, idx := 5 } }

/-!
### Theorems on the claims about scheduling and synchronization
-/

/-- Claim C2, checked at its failing input: on a semaphore initialized to
0, after a down by task 1, a down by task 2 and one up, the code leaves
the counter at -1 with both tasks still blocked, because semaphore_up only
unblocks when the post-increment counter is nonnegative; the claim
predicts max(0, -counter) = 1 blocked task.  The claim's first conjunct
(counter = initial + ups - downs = -1) does hold here. -/
theorem C2_semaphore_waiters_mismatch :
    sem_run { counter := 0, waiting := [] } [SemOp.down 1, SemOp.down 2, SemOp.up]
      = { counter := -1, waiting := [1, 2] } ∧
    ¬ ((2 : Int) = max 0 (-(-1 : Int))) := by
  decide

/-- Claim C3, counterexample: with ready ring [0, 1] (current_running = 0,
one other ready task 1) and task 2 blocked on q, unblock(q) releases task
2, but at the current task's next scheduling point the task that runs is
1, not 2: the released task does not run at the current task's next
scheduling point. -/
theorem C3_unblock_not_next_counterexample :
    (unblock [2] { ring := [0, 1], status := fun _ => TaskStatus.ready }).1 = [] ∧
    (unblock [2] { ring := [0, 1], status := fun _ => TaskStatus.ready }).2.ring
      = [0, 1, 2] ∧
    (scheduler (unblock [2]
      { ring := [0, 1], status := fun _ => TaskStatus.ready }).2).ring.head? = some 1 ∧
    (scheduler (unblock [2]
      { ring := [0, 1], status := fun _ => TaskStatus.ready }).2).ring.head? ≠ some 2 := by
  refine ⟨rfl, rfl, rfl, ?_⟩
  decide

/-- Claim C3 as amended: unblock removes the head of a non-empty wait
queue, marks it READY and inserts it immediately before current_running,
which is the end of the ready ring as ordered from current_running; hence
after the current task's next scheduling point the ring runs through every
task that was already ready before reaching the released task, and the
released task runs at the next scheduling point exactly when the current
task was alone in the ring. -/
theorem C3_unblock_amended (t : Nat) (q : List Nat) (s : SchedState) :
    (unblock (t :: q) s).1 = q ∧
    (unblock (t :: q) s).2.ring = s.ring ++ [t] ∧
    (unblock (t :: q) s).2.status t = TaskStatus.ready ∧
    (∀ c rest, s.ring = c :: rest → s.status c = TaskStatus.ready →
      (scheduler (unblock (t :: q) s).2).ring = rest ++ [t, c]) := by
  refine ⟨rfl, rfl, by simp [unblock], ?_⟩
  intro c rest hring hc
  by_cases hct : c = t
  · subst hct
    simp [unblock, scheduler, hring]
  · simp [unblock, scheduler, hring, hct, hc]

/-- Witness for the amended claim C3 at a concrete input: ring [0, 1],
queue [2]; the released task 2 ends up between 1 and the returning 0. -/
theorem C3_unblock_amended_witness :
    (unblock [2] { ring := [0, 1], status := fun _ => TaskStatus.ready }).1 = [] ∧
    (scheduler (unblock [2]
      { ring := [0, 1], status := fun _ => TaskStatus.ready }).2).ring = [1, 2, 0] :=
  ⟨(C3_unblock_amended 2 [] _).1,
   (C3_unblock_amended 2 [] { ring := [0, 1], status := fun _ => TaskStatus.ready }).2.2.2
      0 [1] rfl rfl⟩

/-- Claim C7: lock_release with an empty wait queue sets the status to
UNLOCKED and changes nothing else; with a non-empty wait queue it unblocks
exactly one waiter (the queue head, inserted immediately before
current_running in the ready ring) and leaves the status field untouched,
so a LOCKED lock stays LOCKED: direct hand-off to the released waiter. -/
theorem C7_lock_release_handoff (l : lock_t) (k : SchedState) :
    (l.waiting = [] →
      (lock_release l k).1.status = LockStatus.unlocked ∧
      (lock_release l k).1.waiting = [] ∧
      (lock_release l k).2 = k) ∧
    (∀ t rest, l.waiting = t :: rest →
      (lock_release l k).1.status = l.status ∧
      (lock_release l k).1.waiting = rest ∧
      (lock_release l k).2.ring = k.ring ++ [t] ∧
      (lock_release l k).2.status t = TaskStatus.ready) := by
  constructor
  · intro h
    simp [lock_release, h]
  · intro t rest h
    refine ⟨?_, ?_, ?_, ?_⟩ <;> simp [lock_release, h, unblock]

/-- Witness for claim C7 at concrete inputs: releasing a LOCKED lock with
waiter 5 hands off (status stays LOCKED, 5 enters the ring before the
current task 9); releasing a LOCKED lock with no waiters unlocks it. -/
theorem C7_lock_release_handoff_witness :
    (lock_release { status := LockStatus.locked, waiting := [5] }
      { ring := [9], status := fun _ => TaskStatus.ready }).1.status
        = LockStatus.locked ∧
    (lock_release { status := LockStatus.locked, waiting := [5] }
      { ring := [9], status := fun _ => TaskStatus.ready }).2.ring = [9, 5] ∧
    (lock_release { status := LockStatus.locked, waiting := [] }
      { ring := [9], status := fun _ => TaskStatus.ready }).1.status
        = LockStatus.unlocked := by
  refine ⟨?_, ?_, ?_⟩
  · exact ((C7_lock_release_handoff { status := LockStatus.locked, waiting := [5] }
      { ring := [9], status := fun _ => TaskStatus.ready }).2 5 [] rfl).1
  · exact ((C7_lock_release_handoff { status := LockStatus.locked, waiting := [5] }
      { ring := [9], status := fun _ => TaskStatus.ready }).2 5 [] rfl).2.2.1
  · exact ((C7_lock_release_handoff { status := LockStatus.locked, waiting := [] }
      { ring := [9], status := fun _ => TaskStatus.ready }).1 rfl).1

/-!
### Mailbox lemmas and claim C5
-/

/-- Positions not written by the copy loop keep their byte. -/
theorem buf_write_untouched (l : List Nat) (b : Nat → Nat) (start p : Nat)
    (h : ∀ j, j < l.length → (start + j) % BUFFER_SIZE ≠ p) :
    buf_write b start l p = b p := by
  induction l generalizing b start with
  | nil => rfl
  | cons x rest ih =>
    have hx : start % BUFFER_SIZE ≠ p := by
      have := h 0 (by simp)
      simpa using this
    have hrest : ∀ j, j < rest.length → (start + 1 + j) % BUFFER_SIZE ≠ p := by
      intro j hj
      have h2 := h (j + 1) (by simpa using Nat.succ_lt_succ hj)
      have he : start + (j + 1) = start + 1 + j := by omega
      rwa [he] at h2
    rw [buf_write, ih _ _ hrest]
    simp [Ne.symm hx]

/-- Reading back at the same start what the copy loop wrote returns the
written bytes, provided they fit in the ring. -/
theorem buf_read_buf_write (l : List Nat) (b : Nat → Nat) (start : Nat)
    (h : l.length ≤ BUFFER_SIZE) :
    buf_read (buf_write b start l) start l.length = l := by
  induction l generalizing b start with
  | nil => rfl
  | cons x rest ih =>
    rw [List.length_cons, buf_write, buf_read]
    have hlen : rest.length ≤ BUFFER_SIZE := by simpa using Nat.le_of_succ_le h
    have hhead :
        buf_write (fun p => if p = start % BUFFER_SIZE then x else b p) (start + 1) rest
          (start % BUFFER_SIZE) = x := by
      rw [buf_write_untouched]
      · simp
      · intro j hj heq
        have hj2 : j + 1 < BUFFER_SIZE := by
          simp only [List.length_cons] at h
          omega
        simp only [BUFFER_SIZE] at heq hj2 ⊢
        omega
    rw [hhead, ih _ _ hlen]

/-- A shorter read is a prefix of a longer read from the same start. -/
theorem buf_read_front (b : Nat → Nat) (n : Nat) :
    ∀ m start, n ≤ m → buf_read b start n = (buf_read b start m).take n := by
  induction n with
  | zero => intro m start _; simp [buf_read]
  | succ k ih =>
    intro m start hm
    match m, hm with
    | m' + 1, hm =>
      rw [buf_read, buf_read, List.take_succ_cons, ih m' (start + 1) (by omega)]

/-- Decoding the little-endian image of a 32-bit value gives it back. -/
theorem decodeLE4_encodeLE4 (n : Nat) (h : n < 4294967296) :
    decodeLE4 (encodeLE4 n) = n := by
  simp only [encodeLE4, decodeLE4, List.getD_cons_zero, List.getD_cons_succ]
  omega

/-- Claim C5: on an otherwise empty mailbox, sending a message whose
header plus payload fits in the buffer and then receiving yields the same
message: same size field and same payload bytes. -/
theorem C5_mbox_send_recv_roundtrip (q : mbox_t) (m : msg_t)
    (hempty : q.count = 0) (hht : q.head = q.tail)
    (hlen : m.body.length = m.size)
    (hfit : sizeof_msg_ptr + m.size ≤ BUFFER_SIZE) :
    Option.map Prod.snd ((mbox_send q m).bind mbox_recv) = some m := by
  have hspace : space_available q = BUFFER_SIZE := by
    simp [space_available, hht, hempty]
  have hbytes_len : (msg_bytes m).length = sizeof_msg_ptr + m.size := by
    simp only [msg_bytes, encodeLE4, sizeof_msg_ptr, List.length_append,
      List.length_cons, List.length_nil, hlen]
  have htake : (msg_bytes m).take (sizeof_msg_ptr + m.size) = msg_bytes m :=
    List.take_of_length_le (le_of_eq hbytes_len)
  have h4 : sizeof_msg_ptr = (encodeLE4 m.size).length := by
    simp [encodeLE4, sizeof_msg_ptr]
  have hread_all :
      buf_read (buf_write q.buffer q.head ((msg_bytes m).take (sizeof_msg_ptr + m.size)))
        q.tail (sizeof_msg_ptr + m.size) = msg_bytes m := by
    rw [htake, ← hht, ← hbytes_len]
    exact buf_read_buf_write _ _ _ (by omega)
  have hread_hdr :
      buf_read (buf_write q.buffer q.head ((msg_bytes m).take (sizeof_msg_ptr + m.size)))
        q.tail sizeof_msg_ptr = encodeLE4 m.size := by
    rw [buf_read_front _ sizeof_msg_ptr (sizeof_msg_ptr + m.size) q.tail (by omega),
      hread_all]
    rw [msg_bytes, h4, List.take_left]
  have hdec : decodeLE4 (encodeLE4 m.size) = m.size := by
    apply decodeLE4_encodeLE4
    have hm : sizeof_msg_ptr + m.size ≤ 256 := hfit
    simp only [sizeof_msg_ptr] at hm
    omega
  have hsend : mbox_send q m =
      some { q with
        buffer := buf_write q.buffer q.head ((msg_bytes m).take (sizeof_msg_ptr + m.size)),
        head := (q.head + (sizeof_msg_ptr + m.size)) % BUFFER_SIZE,
        count := q.count + 1 } := by
    simp only [mbox_send]
    rw [if_neg (by omega)]
  rw [hsend]
  show Option.map Prod.snd (mbox_recv _) = some m
  simp only [mbox_recv]
  rw [if_neg (by simp [hempty])]
  simp only [hread_hdr, hdec, hread_all, Option.map_some']
  congr 1
  simp only [msg_bytes]
  rw [h4, List.take_left, List.drop_left, hdec]

/-- Witness for claim C5 at a concrete input: an empty slot and the
message of size 2 with payload bytes 7, 9. -/
theorem C5_mbox_send_recv_roundtrip_witness :
    Option.map Prod.snd
      ((mbox_send { used := 1, count := 0, head := 0, tail := 0, buffer := fun _ => 0 }
          { size := 2, body := [7, 9] }).bind mbox_recv)
      = some { size := 2, body := [7, 9] } :=
  C5_mbox_send_recv_roundtrip _ _ rfl rfl rfl (by decide)

/-!
### Image builder: claim C8
-/

/-- Claim C8, counterexample: the tool fwrites sizeof(int) = 4 bytes at
offset 2, not 2 bytes, so byte 4 of the bootblock is overwritten with the
third byte of os_size, which is 0 for any kernel below 2^16 sectors.  A
512-byte bootblock whose byte 4 is 7 comes out of a successful run with
byte 4 equal to 0: the bootblock bytes outside 2..3 are not all left
unchanged. -/
theorem C8_os_size_counterexample :
    (createimage ((List.replicate 512 0).set 4 7) [[170]]).getD 4 0 = 0 ∧
    ((List.replicate 512 0).set 4 7).getD 4 0 = 7 := by
  constructor <;> decide


/-- The byte image of an int is 4 bytes long. -/
theorem encodeLE4_length (n : Nat) : (encodeLE4 n).length = 4 := by
  simp [encodeLE4]

/-- Overwriting inside a file keeps the prefix before the write position. -/
theorem overwrite_at_take (l b : List Nat) (pos : Nat) (h : pos ≤ l.length) :
    (overwrite_at l pos b).take pos = l.take pos := by
  simp only [overwrite_at]
  rw [List.append_assoc]
  rw [List.take_append_of_le_length (by rw [List.length_take]; omega)]
  simp [List.take_take]

/-- Overwriting inside a file puts the written bytes at the write position. -/
theorem overwrite_at_middle (l b : List Nat) (pos : Nat) (h : pos ≤ l.length) :
    ((overwrite_at l pos b).drop pos).take b.length = b := by
  simp only [overwrite_at]
  have hA : (l.take pos).length = pos := by rw [List.length_take]; omega
  rw [List.append_assoc, List.drop_left' hA, List.take_left]

/-- Overwriting inside a file keeps the suffix after the written bytes. -/
theorem overwrite_at_suffix (l b : List Nat) (pos : Nat) (h : pos ≤ l.length) :
    (overwrite_at l pos b).drop (pos + b.length) = l.drop (pos + b.length) := by
  simp only [overwrite_at]
  have hA : (l.take pos).length = pos := by rw [List.length_take]; omega
  rw [List.append_assoc, ← List.drop_drop, List.drop_left' hA, List.drop_left]

/-- Claim C8 as amended: on a successful run the tool writes at byte
offset 2 the kernel length in sectors, rounded up, as a 32-bit (4-byte)
little-endian integer, because it fwrites the whole int os_size.  Bytes
0..1 of the bootblock are unchanged, bytes 2..5 hold the 4 bytes of
os_size, and everything from byte 6 on is the rest of the bootblock
followed by the kernel segments and the zero padding.  Since the sector
count is far below 2^16, bytes 2..3 hold it as the 16-bit little-endian
value the bootblock reads and bytes 4..5 become 0; the repository's own
bootblock reserves two zero words at os_size, so for it the write into
bytes 4..5 changes nothing. -/
theorem C8_os_size_amended (boot : List Nat) (segs : List (List Nat))
    (hboot : boot.length = 512) :
    (createimage boot segs).take 2 = boot.take 2 ∧
    ((createimage boot segs).drop 2).take 4 =
      encodeLE4 (segs.flatten.length / 512 +
        (if segs.flatten.length % 512 ≠ 0 then 1 else 0)) ∧
    (createimage boot segs).drop 6 =
      boot.drop 6 ++ segs.flatten ++
        (if segs.flatten.length % 512 ≠ 0 then
          List.replicate (512 - segs.flatten.length % 512) 0 else []) ∧
    (∀ n : Nat, n < 65536 → encodeLE4 n = [n % 256, n / 256 % 256, 0, 0]) := by
  set k := segs.flatten with hk
  set pad := (if k.length % 512 ≠ 0 then
    List.replicate (512 - k.length % 512) 0 else []) with hpad
  set N := k.length / 512 + (if k.length % 512 ≠ 0 then 1 else 0) with hN
  have hci : createimage boot segs = overwrite_at (boot ++ k ++ pad) 2 (encodeLE4 N) := rfl
  have hlen : (boot ++ k ++ pad).length = 512 + k.length + pad.length := by
    simp only [List.length_append, hboot]
  have h4 : (encodeLE4 N).length = 4 := encodeLE4_length N
  refine ⟨?_, ?_, ?_, ?_⟩
  · rw [hci, overwrite_at_take _ _ _ (by omega)]
    rw [List.append_assoc, List.take_append_of_le_length (by omega)]
  · rw [hci, ← h4]
    exact overwrite_at_middle _ _ _ (by omega)
  · rw [hci]
    have hs := overwrite_at_suffix (boot ++ k ++ pad) (encodeLE4 N) 2 (by omega)
    rw [h4] at hs
    rw [show (2 : Nat) + 4 = 6 from rfl] at hs
    rw [hs, List.append_assoc, List.drop_append_of_le_length (by omega),
      ← List.append_assoc]
  · intro n hn
    simp only [encodeLE4]
    have h1 : n / 65536 % 256 = 0 := by omega
    have h2 : n / 16777216 % 256 = 0 := by omega
    rw [h1, h2]

/-- Witness for the amended claim C8: a 512-byte bootblock of 3s and one
two-byte kernel segment; bytes 2..5 of the image hold os_size = 1 as a
little-endian int. -/
theorem C8_os_size_amended_witness :
    ((createimage (List.replicate 512 3) [[5, 6]]).drop 2).take 4 = encodeLE4 1 := by
  have h := C8_os_size_amended (List.replicate 512 3) [[5, 6]]
    (by rw [List.length_replicate])
  exact h.2.1

/-!
### Filesystem: claims C4, C6 (counterexample), C10
-/

/-- Claim C10: fs_close on a descriptor slot in MODE_UNUSED returns
FSE_OK and leaves the whole filesystem state unchanged, including the
open-file table and every in-memory inode with its open_count and pos. -/
theorem C10_fs_close_unused (fd : Int) (s : FsState)
    (h : (s.filedes fd).mode = MODE_UNUSED) :
    fs_close fd s = (s, FSE_OK) := by
  simp [fs_close, h]

/-- Witness for claim C10 at a concrete input. -/
theorem C10_fs_close_unused_witness :
    fs_close 0 (sampleFs MODE_UNUSED) = (sampleFs MODE_UNUSED, FSE_OK) :=
  C10_fs_close_unused 0 (sampleFs MODE_UNUSED) rfl

/-- Claim C4, checked at its failing input: descriptor 0 open with
MODE_RDWR on an empty file; fs_lseek(0, 1, SEEK_SET) should grow the
file to position 1 and return FSE_OK per the claim, but the code takes
the mode & MODE_RDONLY branch (MODE_RDWR contains the MODE_RDONLY bit)
and returns FSE_EOF without resizing or moving pos.  With MODE_WRONLY,
the only writable mode without the RDONLY bit, resize_inode succeeds and
the inverted check if(!resize_inode(..)) returns FSE_FULL, leaving pos at
0 even though the file was resized. -/
theorem C4_fs_lseek_extend_bug :
    fs_lseek ser0 0 1 SEEK_SET (sampleFs MODE_RDWR) = (sampleFs MODE_RDWR, FSE_EOF) ∧
    (fs_lseek ser0 0 1 SEEK_SET (sampleFs MODE_WRONLY)).2 = FSE_FULL ∧
    ((fs_lseek ser0 0 1 SEEK_SET (sampleFs MODE_WRONLY)).1.inodes 5).pos = 0 ∧
    ((fs_lseek ser0 0 1 SEEK_SET (sampleFs MODE_WRONLY)).1.inodes 5).d_inode.size = 1 ∧
    FSE_EOF ≠ FSE_OK := by
  refine ⟨rfl, ?_, ?_, ?_, by decide⟩ <;> decide

/-- Claim C6, counterexample: a descriptor opened with MODE_WRONLY grants
no read access, yet fs_read does not return FSE_INVALIDMODE, because the
mask MODE_RDONLY | MODE_RDWR is 3 and WRONLY & 3 = 2 is nonzero; the read
proceeds (here reading the empty file and returning 0).  Symmetrically
fs_write on a MODE_RDONLY descriptor proceeds and writes one byte. -/
theorem C6_mode_check_counterexample :
    ((fs_read ser0 0 1 (sampleFs MODE_WRONLY)).2.1 = 0 ∧
      (fs_read ser0 0 1 (sampleFs MODE_WRONLY)).2.1 ≠ FSE_INVALIDMODE) ∧
    ((fs_write ser0 0 [7] 1 (sampleFs MODE_RDONLY)).2 = 1 ∧
      (fs_write ser0 0 [7] 1 (sampleFs MODE_RDONLY)).2 ≠ FSE_INVALIDMODE) := by
  refine ⟨⟨?_, ?_⟩, ⟨?_, ?_⟩⟩ <;> decide

/-!
### Filesystem: bitmap round trip, claim C9
-/

/-- Reading an entry just written. -/
theorem getD_set_self (l : List Nat) (i : Nat) (v : Nat) (h : i < l.length) :
    (l.set i v).getD i 0 = v := by
  simp [List.getD_eq_getElem?_getD, List.getElem?_set_self h]

/-- Writing an entry back into its own place changes nothing. -/
theorem set_getD_self (l : List Nat) (i : Nat) (h : i < l.length) :
    l.set i (l.getD i 0) = l := by
  induction l generalizing i with
  | nil => rfl
  | cons a t ih =>
    cases i with
    | zero => rfl
    | succ j =>
      simp only [List.set_cons_succ, List.getD_cons_succ]
      rw [ih j (by simpa using h)]

set_option maxRecDepth 8192 in
/-- Setting a free bit and clearing it with the matching complement mask
restores the byte, for every unsigned char value and every bit. -/
theorem bit_restore_table :
    ∀ b : Nat, b < 256 →
      (b &&& 128 = 0 → (b ||| 128) &&& 127 = b) ∧
      (b &&& 64 = 0 → (b ||| 64) &&& 191 = b) ∧
      (b &&& 32 = 0 → (b ||| 32) &&& 223 = b) ∧
      (b &&& 16 = 0 → (b ||| 16) &&& 239 = b) ∧
      (b &&& 8 = 0 → (b ||| 8) &&& 247 = b) ∧
      (b &&& 4 = 0 → (b ||| 4) &&& 251 = b) ∧
      (b &&& 2 = 0 → (b ||| 2) &&& 253 = b) ∧
      (b &&& 1 = 0 → (b ||| 1) &&& 254 = b) := by
  decide

/-- Freeing the entry that get_free_entry just allocated restores the
bitmap: one step at byte i, bit k. -/
theorem free_restore_step (bm : List Nat) (i k c nb : Nat)
    (hlen : bm.length = 256) (hi : i < 32) (hk : k < 8)
    (hcm : clear_mask ((k : Nat) : Int) = some c)
    (hres : nb &&& c = bm.getD i 0) :
    (free_bitmap_entry (((8 * i + k : Nat) : Int)) (bm.set i nb)).2 = bm := by
  have hil : i < bm.length := by omega
  simp only [free_bitmap_entry]
  rw [if_neg (by push_cast; omega)]
  have ht1 : Int.tdiv ((8 * i + k : Nat) : Int) 8 = (((8 * i + k) / 8 : Nat) : Int) := rfl
  have ht2 : Int.tmod ((8 * i + k : Nat) : Int) 8 = (((8 * i + k) % 8 : Nat) : Int) := rfl
  rw [ht1, ht2]
  have hd : (8 * i + k) / 8 = i := by omega
  have hm : (8 * i + k) % 8 = k := by omega
  rw [hd, hm, hcm]
  simp only [Int.toNat_natCast]
  rw [getD_set_self _ _ _ (by simpa using hil), List.set_set, hres,
    set_getD_self _ _ hil]

/-- The scan loop followed by freeing the returned entry restores the
bitmap, for any start byte i with i + fuel = 32. -/
theorem gfe_loop_free_restore (fuel : Nat) :
    ∀ i bm, i + fuel = 32 → bm.length = 256 → (∀ x ∈ bm, x < 256) →
      (free_bitmap_entry (gfe_loop bm i fuel).1 (gfe_loop bm i fuel).2).2 = bm := by
  induction fuel with
  | zero =>
    intro i bm _ _ _
    rfl
  | succ fuel ih =>
    intro i bm hi hlen hbytes
    have hunfold : gfe_loop bm i (fuel + 1)
        = if bm.getD i 0 = 255 then gfe_loop bm (i + 1) fuel
          else match gfe_byte (bm.getD i 0) with
            | some kv => (((8 * i + kv.1 : Nat) : Int), bm.set i kv.2)
            | none => gfe_loop bm (i + 1) fuel := rfl
    by_cases h255 : bm.getD i 0 = 255
    · rw [hunfold, if_pos h255]
      exact ih (i + 1) bm (by omega) hlen hbytes
    · rw [hunfold, if_neg h255]
      cases hbyte : gfe_byte (bm.getD i 0) with
      | none =>
        exact ih (i + 1) bm (by omega) hlen hbytes
      | some kv =>
        obtain ⟨k, nb⟩ := kv
        have hil : i < bm.length := by omega
        have hmem : bm.getD i 0 ∈ bm := by
          have h1 : bm.getD i 0 = bm[i] := by
            rw [List.getD_eq_getElem?_getD, List.getElem?_eq_getElem hil]
            rfl
          rw [h1]
          exact List.getElem_mem _
        have hb : bm.getD i 0 < 256 := hbytes _ hmem
        have hrt := bit_restore_table (bm.getD i 0) hb
        show (free_bitmap_entry (((8 * i + k : Nat) : Int)) (bm.set i nb)).2 = bm
        simp only [gfe_byte] at hbyte
        split_ifs at hbyte with h1 h2 h3 h4 h5 h6 h7 h8
        · simp only [Option.some.injEq, Prod.mk.injEq] at hbyte
          obtain ⟨hk, hnb⟩ := hbyte
          subst hk; subst hnb
          exact free_restore_step bm i 0 127 _ hlen (by omega) (by omega) rfl (hrt.1 h1)
        · simp only [Option.some.injEq, Prod.mk.injEq] at hbyte
          obtain ⟨hk, hnb⟩ := hbyte
          subst hk; subst hnb
          exact free_restore_step bm i 1 191 _ hlen (by omega) (by omega) rfl
            (hrt.2.1 h2)
        · simp only [Option.some.injEq, Prod.mk.injEq] at hbyte
          obtain ⟨hk, hnb⟩ := hbyte
          subst hk; subst hnb
          exact free_restore_step bm i 2 223 _ hlen (by omega) (by omega) rfl
            (hrt.2.2.1 h3)
        · simp only [Option.some.injEq, Prod.mk.injEq] at hbyte
          obtain ⟨hk, hnb⟩ := hbyte
          subst hk; subst hnb
          exact free_restore_step bm i 3 239 _ hlen (by omega) (by omega) rfl
            (hrt.2.2.2.1 h4)
        · simp only [Option.some.injEq, Prod.mk.injEq] at hbyte
          obtain ⟨hk, hnb⟩ := hbyte
          subst hk; subst hnb
          exact free_restore_step bm i 4 247 _ hlen (by omega) (by omega) rfl
            (hrt.2.2.2.2.1 h5)
        · simp only [Option.some.injEq, Prod.mk.injEq] at hbyte
          obtain ⟨hk, hnb⟩ := hbyte
          subst hk; subst hnb
          exact free_restore_step bm i 5 251 _ hlen (by omega) (by omega) rfl
            (hrt.2.2.2.2.2.1 h6)
        · simp only [Option.some.injEq, Prod.mk.injEq] at hbyte
          obtain ⟨hk, hnb⟩ := hbyte
          subst hk; subst hnb
          exact free_restore_step bm i 6 253 _ hlen (by omega) (by omega) rfl
            (hrt.2.2.2.2.2.2.1 h7)
        · simp only [Option.some.injEq, Prod.mk.injEq] at hbyte
          obtain ⟨hk, hnb⟩ := hbyte
          subst hk; subst hnb
          exact free_restore_step bm i 7 254 _ hlen (by omega) (by omega) rfl
            (hrt.2.2.2.2.2.2.2 h8)

/-- Claim C9: for every 256-byte bitmap, free_bitmap_entry applied to the
entry returned by get_free_entry restores the bitmap to its value before
the pair of calls; when the bitmap is full get_free_entry returns -1
without changing it and free_bitmap_entry(-1) changes nothing either. -/
theorem C9_bitmap_roundtrip (bm : List Nat) (hlen : bm.length = 256)
    (hbytes : ∀ x ∈ bm, x < 256) :
    (free_bitmap_entry (get_free_entry bm).1 (get_free_entry bm).2).2 = bm :=
  gfe_loop_free_restore 32 0 bm rfl hlen hbytes

/-- Witness for claim C9 at a concrete input: the all-zero bitmap, where
get_free_entry returns entry 0. -/
theorem C9_bitmap_roundtrip_witness :
    (free_bitmap_entry (get_free_entry (List.replicate 256 0)).1
      (get_free_entry (List.replicate 256 0)).2).2 = List.replicate 256 0 :=
  C9_bitmap_roundtrip (List.replicate 256 0) (by rw [List.length_replicate])
    (by intro x hx; rw [List.eq_of_mem_replicate hx]; omega)

/-!
### Filesystem: the byte count read by db_read, and claim C6
-/

/-- The read loop returns finish_pos - start_pos bytes: invariant proof
over the three loop phases (at the start block with nothing read yet,
inside the range with read + start_pos = 512 * x, and done). -/
theorem db_read_loop_count (sbs fsb : Int) (direct : List Int) (d : Int → Int → Nat)
    (sp fp iz : Nat) (hspfp : sp ≤ fp) (hfpiz : fp ≤ iz) :
    ∀ (fuel : Nat) (x rd : Int) (acc : List Nat),
      ((fp / 512 + 1 : Nat) : Int) ≤ x + fuel →
      ((x = ((sp / 512 : Nat) : Int) ∧ rd = 0) ∨
       (((sp / 512 : Nat) : Int) < x ∧ rd + (sp : Int) = 512 * x ∧
         rd + (sp : Int) ≤ (fp : Int)) ∨
       (rd + (sp : Int) = (fp : Int) ∧ x = ((fp / 512 + 1 : Nat) : Int))) →
      (db_read_loop sbs fsb direct (sp : Int) (fp : Int) ((sp / 512 : Nat) : Int)
        ((fp / 512 + 1 : Nat) : Int) (iz : Int) d fuel x rd acc).2
        = (fp : Int) - (sp : Int) := by
  intro fuel
  induction fuel with
  | zero =>
    intro x rd acc hfuel hinv
    show rd = (fp : Int) - (sp : Int)
    rcases hinv with ⟨hx, hrd⟩ | ⟨hx, hrd, hle⟩ | ⟨hrd, hx⟩ <;> omega
  | succ fuel ih =>
    intro x rd acc hfuel hinv
    simp only [db_read_loop]
    by_cases hcond : x < ((fp / 512 + 1 : Nat) : Int) ∧ rd + (sp : Int) < (iz : Int)
    · rw [if_pos hcond]
      have hm : Int.tmod ((sp : Nat) : Int) 512 = ((sp % 512 : Nat) : Int) := rfl
      rcases hinv with ⟨hx, hrd⟩ | ⟨hx, hrd, hle⟩ | ⟨hrd, hx⟩
      · rw [if_pos hx]
        by_cases hlast : x + 1 = ((fp / 512 + 1 : Nat) : Int)
        · rw [if_pos hlast]
          apply ih
          · omega
          · right; right
            constructor
            · omega
            · exact hlast
        · rw [if_neg hlast, hm]
          apply ih
          · omega
          · right; left
            refine ⟨by omega, by omega, by omega⟩
      · have hxsb : ¬ (x = ((sp / 512 : Nat) : Int)) := by omega
        rw [if_neg hxsb]
        by_cases hlast : x + 1 = ((fp / 512 + 1 : Nat) : Int)
        · rw [if_pos hlast]
          apply ih
          · omega
          · right; right
            constructor
            · omega
            · exact hlast
        · rw [if_neg hlast]
          apply ih
          · omega
          · right; left
            refine ⟨by omega, by omega, by omega⟩
      · exact absurd hcond.1 (by omega)
    · rw [if_neg hcond]
      show rd = (fp : Int) - (sp : Int)
      rcases hinv with ⟨hx, hrd⟩ | ⟨hx, hrd, hle⟩ | ⟨hrd, hx⟩ <;> omega

/-- db_read returns min(size, file size - pos) when reading size bytes
from a legal position. -/
theorem db_read_count (id size start_pos : Int) (s : FsState)
    (h0 : 0 ≤ start_pos) (hsz : 0 ≤ size)
    (hpos : start_pos ≤ (s.inodes id).d_inode.size) :
    (db_read id size start_pos s).2
      = min size ((s.inodes id).d_inode.size - start_pos) := by
  have hiz : 0 ≤ (s.inodes id).d_inode.size := le_trans h0 hpos
  set spN := start_pos.toNat with hspN
  set izN := ((s.inodes id).d_inode.size).toNat with hizN
  set fpN := min (size.toNat + spN) izN with hfpN
  have hsp : start_pos = (spN : Int) := by omega
  have hizc : (s.inodes id).d_inode.size = (izN : Int) := by omega
  have hfp : (if (s.inodes id).d_inode.size < size + start_pos
      then (s.inodes id).d_inode.size else size + start_pos) = (fpN : Int) := by
    split <;> omega
  have hspfp : spN ≤ fpN := by omega
  have hfpiz : fpN ≤ izN := by omega
  simp only [db_read]
  rw [hfp]
  rw [if_neg (by omega)]
  have hsb : Int.tdiv start_pos 512 = ((spN / 512 : Nat) : Int) := by
    rw [hsp]; rfl
  have hfb : Int.tdiv ((fpN : Nat) : Int) 512 + 1 = ((fpN / 512 + 1 : Nat) : Int) := by
    have h1 : Int.tdiv ((fpN : Nat) : Int) 512 = ((fpN / 512 : Nat) : Int) := rfl
    rw [h1]; push_cast; ring
  rw [hsb, hfb, hsp, hizc]
  rw [db_read_loop_count s.sbs s.fs_blocks (s.inodes id).d_inode.direct s.disk
    spN fpN izN hspfp hfpiz _ _ _ _ (by omega) (Or.inl ⟨rfl, rfl⟩)]
  omega

/-- A pos within the file size is stored and fs_lseek_setpos returns
FSE_OK without touching anything else. -/
theorem fs_lseek_setpos_within (ser : disk_inode → List Nat) (fd offset pos : Int)
    (s : FsState)
    (h : pos ≤ (s.inodes ((s.filedes fd).idx)).d_inode.size) :
    fs_lseek_setpos ser fd offset pos s
      = ({ s with inodes := (fun j => if j = (s.filedes fd).idx then
          { s.inodes j with pos := pos } else s.inodes j) }, FSE_OK) := by
  simp only [fs_lseek_setpos]
  rw [if_neg (by omega)]

/-- fs_lseek with SEEK_CUR reaches the shared tail with pos =
offset + current pos. -/
theorem fs_lseek_cur_eq (ser : disk_inode → List Nat) (fd offset : Int) (s : FsState)
    (hmode : ¬ ((s.filedes fd).mode = MODE_UNUSED)) :
    fs_lseek ser fd offset SEEK_CUR s
      = fs_lseek_setpos ser fd offset (offset + (s.inodes ((s.filedes fd).idx)).pos) s := by
  simp only [fs_lseek]
  rw [if_neg hmode, if_neg (by decide)]
  simp

/-- fs_lseek with SEEK_SET reaches the shared tail with pos = offset. -/
theorem fs_lseek_set_eq (ser : disk_inode → List Nat) (fd offset : Int) (s : FsState)
    (hmode : ¬ ((s.filedes fd).mode = MODE_UNUSED)) :
    fs_lseek ser fd offset SEEK_SET s = fs_lseek_setpos ser fd offset offset s := by
  simp only [fs_lseek]
  rw [if_neg hmode]
  simp

/-- Claim C6 as amended: fs_read returns FSE_INVALIDMODE exactly for
descriptors whose mode has no bit of MODE_RDONLY | MODE_RDWR = 3, that is
MODE_UNUSED or a bare MODE_CREAT — but not MODE_WRONLY, since
MODE_RDWR = MODE_RDONLY | MODE_WRONLY makes the mask cover the WRONLY bit
as well; symmetrically fs_write checks mode & (MODE_WRONLY | MODE_RDWR),
the same mask 3, so MODE_RDONLY descriptors pass it.  Otherwise the calls
transfer data and advance pos by the amount transferred via
fs_lseek(fd, delta, SEEK_CUR): a permitted fs_read returns
min(size, file size - pos) and moves pos forward by exactly that count. -/
theorem C6_mode_mask_and_pos_advance :
    (∀ (ser : disk_inode → List Nat) (fd size : Int) (s : FsState),
      (s.filedes fd).mode &&& (MODE_RDONLY ||| MODE_RDWR) = 0 →
        fs_read ser fd size s = (s, FSE_INVALIDMODE, [])) ∧
    (∀ (ser : disk_inode → List Nat) (fd size : Int) (buf : List Nat) (s : FsState),
      (s.filedes fd).mode &&& (MODE_WRONLY ||| MODE_RDWR) = 0 →
        fs_write ser fd buf size s = (s, FSE_INVALIDMODE)) ∧
    MODE_WRONLY &&& (MODE_RDONLY ||| MODE_RDWR) ≠ 0 ∧
    MODE_RDONLY &&& (MODE_WRONLY ||| MODE_RDWR) ≠ 0 ∧
    (∀ (ser : disk_inode → List Nat) (fd size : Int) (s : FsState),
      (s.filedes fd).mode &&& (MODE_RDONLY ||| MODE_RDWR) ≠ 0 →
      0 ≤ size →
      0 ≤ (s.inodes ((s.filedes fd).idx)).pos →
      (s.inodes ((s.filedes fd).idx)).pos
        ≤ (s.inodes ((s.filedes fd).idx)).d_inode.size →
      (fs_read ser fd size s).2.1
          = min size ((s.inodes ((s.filedes fd).idx)).d_inode.size
              - (s.inodes ((s.filedes fd).idx)).pos) ∧
        ((fs_read ser fd size s).1.inodes ((s.filedes fd).idx)).pos
          = (s.inodes ((s.filedes fd).idx)).pos + (fs_read ser fd size s).2.1) := by
  refine ⟨?_, ?_, by decide, by decide, ?_⟩
  · intro ser fd size s h
    simp [fs_read, h]
  · intro ser fd size buf s h
    simp [fs_write, h]
  · intro ser fd size s hmode hsz hpos0 hposle
    have hcount := db_read_count ((s.filedes fd).idx) size
      (s.inodes ((s.filedes fd).idx)).pos s hpos0 hsz hposle
    have hne : ¬ ((s.filedes fd).mode = MODE_UNUSED) := by
      intro h
      rw [h] at hmode
      exact hmode (by decide)
    have hseek : fs_lseek ser fd
        (db_read ((s.filedes fd).idx) size (s.inodes ((s.filedes fd).idx)).pos s).2
        SEEK_CUR s
        = ({ s with inodes := (fun j => if j = (s.filedes fd).idx then
            { s.inodes j with
              pos := (db_read ((s.filedes fd).idx) size
                  (s.inodes ((s.filedes fd).idx)).pos s).2
                + (s.inodes ((s.filedes fd).idx)).pos }
            else s.inodes j) }, FSE_OK) := by
      rw [fs_lseek_cur_eq ser fd _ s hne]
      exact fs_lseek_setpos_within ser fd _ _ s (by omega)
    have hfs : fs_read ser fd size s
        = (({ s with inodes := (fun j => if j = (s.filedes fd).idx then
            { s.inodes j with
              pos := (db_read ((s.filedes fd).idx) size
                  (s.inodes ((s.filedes fd).idx)).pos s).2
                + (s.inodes ((s.filedes fd).idx)).pos }
            else s.inodes j) }),
           (db_read ((s.filedes fd).idx) size (s.inodes ((s.filedes fd).idx)).pos s).2,
           (db_read ((s.filedes fd).idx) size (s.inodes ((s.filedes fd).idx)).pos s).1) := by
      simp only [fs_read]
      rw [if_neg hmode]
      rw [if_neg (by omega)]
      rw [hseek]
      rw [if_neg (fun h => h rfl)]
    rw [hfs]
    constructor
    · exact hcount
    · simp
      omega

/-- Witness for the amended claim C6 at concrete inputs: a bare MODE_CREAT
descriptor is rejected by fs_read with FSE_INVALIDMODE, while a
MODE_WRONLY descriptor passes the read check and reads 0 bytes of the
empty file, leaving pos at 0. -/
theorem C6_mode_mask_and_pos_advance_witness :
    fs_read ser0 0 5 (sampleFs MODE_CREAT) = (sampleFs MODE_CREAT, FSE_INVALIDMODE, []) ∧
    (fs_read ser0 0 5 (sampleFs MODE_WRONLY)).2.1 = 0 ∧
    ((fs_read ser0 0 5 (sampleFs MODE_WRONLY)).1.inodes 5).pos = 0 := by
  have h := C6_mode_mask_and_pos_advance
  refine ⟨h.1 ser0 0 5 (sampleFs MODE_CREAT) (by decide), ?_, ?_⟩
  · have h2 := (h.2.2.2.2 ser0 0 5 (sampleFs MODE_WRONLY) (by decide) (by decide)
      (by decide) (by decide)).1
    simpa using h2
  · have h2 := h.2.2.2.2 ser0 0 5 (sampleFs MODE_WRONLY) (by decide) (by decide)
      (by decide) (by decide)
    have h3 := h2.2
    rw [h2.1] at h3
    simpa using h3

/-!
### Filesystem: claim C1, the write-seek-read round trip

The scenario is a fresh empty file (all direct slots -1) on a disk whose
data-bitmap byte 0 is free, written through a MODE_RDWR descriptor at
position 0.  The proofs characterize resize_inode's allocation (slots
0..blocks-1 receive data blocks 0..blocks-1), the db_write loop (bytes
0..n-1 of the buffer land at their block and offset) and the db_read
loop (those bytes come back in order).
-/

/-- Reading an entry other than the one just set. -/
theorem getD_set_ne (l : List Nat) (i j : Nat) (v : Nat) (h : ¬ (i = j)) :
    (l.set i v).getD j 0 = l.getD j 0 := by
  simp [List.getD_eq_getElem?_getD, List.getElem?_set_ne h]

/-- Reading an Int entry other than the one just set. -/
theorem getD_set_ne_int (l : List Int) (i j : Nat) (v : Int) (h : ¬ (i = j)) :
    (l.set i v).getD j 0 = l.getD j 0 := by
  simp [List.getD_eq_getElem?_getD, List.getElem?_set_ne h]

/-- Reading an Int entry just set. -/
theorem getD_set_self_int (l : List Int) (i : Nat) (v : Int) (h : i < l.length) :
    (l.set i v).getD i 0 = v := by
  simp [List.getD_eq_getElem?_getD, List.getElem?_set_self h]

/-- getD after drop looks up at the shifted index. -/
theorem getD_drop (l : List Nat) (k i : Nat) :
    (l.drop k).getD i 0 = l.getD (k + i) 0 := by
  simp [List.getD_eq_getElem?_getD, List.getElem?_drop]

/-- Every slot of the all-unallocated direct array reads -1. -/
theorem getD_replicate_neg (j : Nat) (h : j < 8) :
    (List.replicate 8 (-1 : Int)).getD j 0 = -1 := by
  interval_cases j <;> rfl

/-- One allocation step of get_free_entry on a bitmap whose byte 0 holds
the fill pattern after m allocations: it returns entry m and advances the
pattern. -/
theorem gfe_step (L : List Nat) (hL : L.length = 256) (m : Nat) (hm : m < 8) :
    get_free_entry (L.set 0 (gfe_mask m)) = (((m : Nat) : Int), L.set 0 (gfe_mask (m + 1))) := by
  have hstep : ∀ (bm : List Nat) (i fuel : Nat), gfe_loop bm i (fuel + 1)
      = (if bm.getD i 0 = 255 then gfe_loop bm (i + 1) fuel
         else match gfe_byte (bm.getD i 0) with
           | some kv => (((8 * i + kv.1 : Nat) : Int), bm.set i kv.2)
           | none => gfe_loop bm (i + 1) fuel) := fun _ _ _ => rfl
  have h0 : ∀ v : Nat, (L.set 0 v).getD 0 0 = v := fun v => getD_set_self L 0 v (by omega)
  show gfe_loop (L.set 0 (gfe_mask m)) 0 32 = _
  rw [show (32 : Nat) = 31 + 1 from rfl, hstep, h0]
  interval_cases m <;> simp [gfe_mask, gfe_byte, List.set_set] <;> rfl

/-- The direct-slot loop of resize_inode on a fresh file with an all-free
first bitmap byte: it succeeds, and slot j ends as j when j < blocks and
as -1 otherwise. -/
theorem resize_loop_fresh (ndata blocks : Int) (L : List Nat)
    (hL : L.length = 256) (hnd : 8 ≤ ndata) (hb1 : 1 ≤ blocks) :
    ∀ (fuel x : Nat) (dl : List Int),
      x + fuel = 8 → dl.length = 8 →
      (∀ j : Nat, j < 8 → dl.getD j 0
        = if ((j : Int) < blocks ∧ j < x) then (j : Int) else -1) →
      (resize_loop ndata blocks x fuel dl (L.set 0 (gfe_mask (min x blocks.toNat)))).2.2
          = true ∧
      (∀ j : Nat, j < 8 →
        (resize_loop ndata blocks x fuel dl
          (L.set 0 (gfe_mask (min x blocks.toNat)))).1.getD j 0
            = if (j : Int) < blocks then (j : Int) else -1) := by
  intro fuel
  induction fuel with
  | zero =>
    intro x dl hx hdlen hdl
    constructor
    · rfl
    · intro j hj
      have := hdl j hj
      rw [show (resize_loop ndata blocks x 0 dl
        (L.set 0 (gfe_mask (min x blocks.toNat)))).1 = dl from rfl]
      rw [this]
      have hxj : j < x := by omega
      by_cases hb : (j : Int) < blocks
      · rw [if_pos ⟨hb, hxj⟩, if_pos hb]
      · rw [if_neg (by tauto), if_neg hb]
  | succ fuel ih =>
    intro x dl hx hdlen hdl
    have hx7 : x < 8 := by omega
    simp only [resize_loop]
    by_cases hxb : (x : Int) < blocks
    · have hdlx : dl.getD x 0 = -1 := by
        rw [hdl x hx7, if_neg (by omega)]
      rw [if_pos hxb, if_pos hdlx]
      rw [Nat.min_eq_left (show x ≤ blocks.toNat from by omega)]
      have hfst : (get_free_entry (L.set 0 (gfe_mask x))).1 = ((x : Nat) : Int) := by
        rw [gfe_step L hL x hx7]
      have hsnd : (get_free_entry (L.set 0 (gfe_mask x))).2
          = L.set 0 (gfe_mask (x + 1)) := by
        rw [gfe_step L hL x hx7]
      rw [hfst, hsnd]
      have hcond : ¬(((x : Nat) : Int) = -1 ∨ ndata ≤ ((x : Nat) : Int)) := by
        omega
      rw [if_neg hcond]
      have hrec := ih (x + 1) (dl.set x ((x : Nat) : Int)) (by omega) (by simpa using hdlen)
        (by
          intro j hj
          by_cases hjx : j = x
          · subst hjx
            rw [getD_set_self_int dl j _ (by omega), if_pos ⟨hxb, by omega⟩]
          · rw [getD_set_ne_int dl x j _ (by omega), hdl j hj]
            by_cases hb : (j : Int) < blocks
            · by_cases hjlt : j < x
              · rw [if_pos ⟨hb, hjlt⟩, if_pos ⟨hb, by omega⟩]
              · rw [if_neg (by tauto), if_neg (by
                  intro hc
                  exact hjlt (by omega))]
            · rw [if_neg (by tauto), if_neg (by tauto)])
      rw [Nat.min_eq_left (show x + 1 ≤ blocks.toNat from by omega)] at hrec
      exact hrec
    · have hdlx : dl.getD x 0 = -1 := by
        rw [hdl x hx7, if_neg (by tauto)]
      rw [if_neg hxb]
      rw [if_neg (by rw [hdlx]; exact fun h => h rfl)]
      have hrec := ih (x + 1) dl (by omega) hdlen
        (by
          intro j hj
          rw [hdl j hj]
          by_cases hb : (j : Int) < blocks
          · by_cases hjlt : j < x
            · rw [if_pos ⟨hb, hjlt⟩, if_pos ⟨hb, by omega⟩]
            · rw [if_neg (by tauto), if_neg (by
                intro hc
                have : j = x := by omega
                subst this
                exact hxb hb)]
          · rw [if_neg (by tauto), if_neg (by tauto)])
      rw [Nat.min_eq_right (show blocks.toNat ≤ x + 1 from by omega)] at hrec
      rw [Nat.min_eq_right (show blocks.toNat ≤ x from by omega)]
      exact hrec

/-- For direct indices below INODE_NDIRECT on a filesystem with at least
43 blocks, idx2blk is in range and gives block sbs + 34 + index. -/
theorem idx2blk_small (sbs fsb : Int) (j : Nat) (hj : j < 8) (hfsb : 43 ≤ fsb) :
    idx2blk sbs fsb ((j : Nat) : Int) = sbs + 2 + 32 + ((j : Nat) : Int) := by
  simp only [idx2blk]
  rw [if_neg (by omega)]

/-- idx2blk on any in-range data block index gives block sbs + 34 + index. -/
theorem idx2blk_in_range (sbs fsb e : Int) (h0 : 0 ≤ e) (h1 : e ≤ fsb - 32 - 2 - 1) :
    idx2blk sbs fsb e = sbs + 2 + 32 + e := by
  simp only [idx2blk]
  rw [if_neg (by omega)]

/-- Whenever resize_inode returns FSE_OK it has stored the new size,
preserved pos and left the bookkeeping fields untouched (the direct
slots and the disk may of course change). -/
theorem resize_inode_ok_facts (ser : disk_inode → List Nat) (id new_size : Int)
    (s : FsState) (hok : (resize_inode ser id new_size s).2 = FSE_OK) :
    ((resize_inode ser id new_size s).1.inodes id).d_inode.size = new_size ∧
    ((resize_inode ser id new_size s).1.inodes id).pos = (s.inodes id).pos ∧
    (resize_inode ser id new_size s).1.sbs = s.sbs ∧
    (resize_inode ser id new_size s).1.fs_blocks = s.fs_blocks ∧
    (resize_inode ser id new_size s).1.super = s.super ∧
    (resize_inode ser id new_size s).1.filedes = s.filedes := by
  simp only [resize_inode, load_bitmaps] at hok ⊢
  split_ifs at hok ⊢ with h1 h2
  · exact absurd (show FSE_INODETABLEFULL = FSE_OK from hok) (by decide)
  · exact absurd (show FSE_FULL = FSE_OK from hok) (by decide)
  · refine ⟨?_, ?_, rfl, rfl, rfl, rfl⟩
    · simp [save_inode, save_bitmaps]
    · simp [save_inode, save_bitmaps]

/-- resize_inode on a fresh empty file (every direct slot -1) whose data
bitmap block reads back all zero: the resize succeeds, the first
new_size / 512 + 1 direct slots (capped at 8) become the data block
indices 0, 1, ..., the size is stored, and pos together with the
state's bookkeeping fields is untouched. -/
theorem resize_inode_fresh (ser : disk_inode → List Nat) (id : Int) (N : Nat)
    (s : FsState)
    (hdirect : (s.inodes id).d_inode.direct = List.replicate 8 (-1))
    (hdisk0 : ∀ o : Int, s.disk (s.sbs + 2) o = 0)
    (hmax : ((N : Nat) : Int) ≤ s.super.max_filesize)
    (hnd : 8 ≤ s.super.ndata_blks) :
    (resize_inode ser id ((N : Nat) : Int) s).2 = FSE_OK ∧
    ((resize_inode ser id ((N : Nat) : Int) s).1.inodes id).d_inode.size
      = ((N : Nat) : Int) ∧
    ((resize_inode ser id ((N : Nat) : Int) s).1.inodes id).pos = (s.inodes id).pos ∧
    (∀ j : Nat, j < 8 →
      ((resize_inode ser id ((N : Nat) : Int) s).1.inodes id).d_inode.direct.getD j 0
        = if (j : Int) < ((N / 512 : Nat) : Int) + 1 then (j : Int) else -1) ∧
    (resize_inode ser id ((N : Nat) : Int) s).1.sbs = s.sbs ∧
    (resize_inode ser id ((N : Nat) : Int) s).1.fs_blocks = s.fs_blocks ∧
    (resize_inode ser id ((N : Nat) : Int) s).1.super = s.super ∧
    (resize_inode ser id ((N : Nat) : Int) s).1.filedes = s.filedes := by
  simp only [resize_inode, load_bitmaps, INODE_NDIRECT]
  rw [if_neg (show ¬ s.super.max_filesize < ((N : Nat) : Int) from by omega)]
  rw [show Int.tdiv ((N : Nat) : Int) 512 = ((N / 512 : Nat) : Int) from rfl]
  rw [hdirect]
  set L := block_read_part s.disk (s.sbs + 2) 0 256 with hLdef
  have hL : L.length = 256 := by
    rw [hLdef, block_read_part, List.length_map, List.length_range]
    rfl
  have hL0 : L.getD 0 0 = 0 := by
    have h0 : (List.range (Int.toNat 256))[0]? = some 0 := by
      rw [List.getElem?_eq_getElem (by rw [List.length_range]; decide)]
      rw [List.getElem_range]
    rw [hLdef, block_read_part, List.getD_eq_getElem?_getD, List.getElem?_map, h0]
    simp [hdisk0]
  have hLset : L.set 0 0 = L := by
    have h := set_getD_self L 0 (by omega)
    rwa [hL0] at h
  have hloop := resize_loop_fresh s.super.ndata_blks (((N / 512 : Nat) : Int) + 1) L hL
    hnd (by omega) 8 0 (List.replicate 8 (-1)) rfl (by simp)
    (fun j hj => by rw [getD_replicate_neg j hj, if_neg (by omega)])
  rw [Nat.min_eq_left (Nat.zero_le _)] at hloop
  rw [show gfe_mask 0 = 0 from rfl] at hloop
  rw [hLset] at hloop
  rw [hloop.1]
  rw [if_neg (show ¬ (true = false) from by decide)]
  refine ⟨rfl, ?_, ?_, ?_, rfl, rfl, rfl, rfl⟩
  · simp [save_inode, save_bitmaps]
  · simp [save_inode, save_bitmaps]
  · intro j hj
    have h2 := hloop.2 j hj
    simpa [save_inode, save_bitmaps] using h2

/-- Pointwise reading of block_modify. -/
theorem block_modify_read (d : Int → Int → Nat) (blk off : Int) (buf : List Nat)
    (len b o : Int) :
    block_modify d blk off buf len b o
      = if b = blk ∧ off ≤ o ∧ o < off + len then buf.getD (o - off).toNat 0
        else d b o := rfl

/-- The db_write block loop entered at block x with written = 512 * x,
start position 0 and n bytes to write, over direct slots that are in
range and pairwise distinct on the accessed blocks: it returns n, stores
byte p of the buffer at byte p % 512 of data block sbs + 34 + direct
slot p / 512, and leaves every block other than the remaining accessed
data blocks untouched. -/
theorem db_write_loop_zero (sbs fsb : Int) (direct : List Int) (buf : List Nat)
    (n : Nat) (hn : n ≤ 4096)
    (hvalid : ∀ j : Nat, j < 8 → 512 * j < n →
      0 ≤ direct.getD j 0 ∧ direct.getD j 0 ≤ fsb - 32 - 2 - 1)
    (hdist : ∀ j : Nat, j < 8 → ∀ k : Nat, k < 8 → 512 * j < n → 512 * k < n →
      j ≠ k → direct.getD j 0 ≠ direct.getD k 0) :
    ∀ (fuel x : Nat) (d : Int → Int → Nat) (xI wI : Int),
      fuel + x = n / 512 + 1 → 512 * x ≤ n →
      xI = ((x : Nat) : Int) → wI = ((512 * x : Nat) : Int) →
      ∀ (D : Int → Int → Nat) (W : Int),
        db_write_loop sbs fsb direct buf 0 ((n : Nat) : Int) 0
          (((n / 512 : Nat) : Int) + 1) ((n : Nat) : Int) fuel xI wI d = (D, W) →
        W = ((n : Nat) : Int) ∧
        (∀ p : Nat, 512 * x ≤ p → p < n →
          D (sbs + 2 + 32 + direct.getD (p / 512) 0) ((p % 512 : Nat) : Int)
            = buf.getD p 0) ∧
        (∀ b o : Int,
          (∀ j : Nat, x ≤ j → j < 8 → 512 * j < n →
            b ≠ sbs + 2 + 32 + direct.getD j 0) →
          D b o = d b o) := by
  intro fuel
  induction fuel with
  | zero =>
    intro x d xI wI hfuel hx512 hxI hwI D W hDW
    exact absurd hx512 (by omega)
  | succ fuel ih =>
    intro x d xI wI hfuel hx512 hxI hwI D W hDW
    subst hxI
    subst hwI
    simp only [db_write_loop] at hDW
    by_cases hcond : (((x : Nat) : Int) < ((n / 512 : Nat) : Int) + 1 ∧
        (0 : Int) + ((512 * x : Nat) : Int) < ((n : Nat) : Int))
    · rw [if_pos hcond] at hDW
      have h512 : 512 * x < n := by omega
      have hx8 : x < 8 := by omega
      by_cases hx0 : ((x : Nat) : Int) = 0
      · rw [if_pos hx0] at hDW
        by_cases hlast : ((x : Nat) : Int) + 1 = ((n / 512 : Nat) : Int) + 1
        · rw [if_pos hlast, show Int.tmod 0 512 = 0 from rfl, sub_zero] at hDW
          have hf : fuel = 0 := by omega
          subst hf
          simp only [db_write_loop] at hDW
          rw [Prod.mk.injEq] at hDW
          obtain ⟨hD, hW⟩ := hDW
          subst hD
          subst hW
          refine ⟨by omega, ?_, ?_⟩
          · intro p hp1 hp2
            rw [show (((x : Nat) : Int)).toNat = x from rfl]
            rw [idx2blk_in_range sbs fsb (direct.getD x 0) (hvalid x hx8 h512).1
              (hvalid x hx8 h512).2, block_modify_read]
            have hpd : p / 512 = x := by omega
            rw [hpd]
            split_ifs with hm
            · rw [show (((512 * x : Nat) : Int)).toNat = 512 * x from rfl, sub_zero]
              rw [show (((p % 512 : Nat) : Int)).toNat = p % 512 from rfl, getD_drop]
              have hfin : 512 * x + p % 512 = p := by omega
              rw [hfin]
            · exact absurd ⟨rfl, by omega, by omega⟩ hm
          · intro b o hb
            rw [show (((x : Nat) : Int)).toNat = x from rfl]
            rw [idx2blk_in_range sbs fsb (direct.getD x 0) (hvalid x hx8 h512).1
              (hvalid x hx8 h512).2, block_modify_read]
            split_ifs with hm
            · exact absurd hm.1 (hb x (le_refl x) hx8 h512)
            · rfl
        · rw [if_neg hlast, show Int.tmod 0 512 = 0 from rfl, sub_zero] at hDW
          rw [show ((x : Nat) : Int) + 1 = (((x + 1 : Nat)) : Int) from by push_cast; ring,
            show ((512 * x : Nat) : Int) + 512
              = (((512 * (x + 1) : Nat)) : Int) from by push_cast; ring] at hDW
          obtain ⟨ihc, ihp, ihf⟩ := ih (x + 1) _ _ _ (by omega) (by omega) rfl rfl D W hDW
          refine ⟨ihc, ?_, ?_⟩
          · intro p hp1 hp2
            by_cases hpx : 512 * (x + 1) ≤ p
            · exact ihp p hpx hp2
            · have hpd : p / 512 = x := by omega
              rw [ihf (sbs + 2 + 32 + direct.getD (p / 512) 0) ((p % 512 : Nat) : Int)
                (fun j hj1 hj2 hj3 => by
                  rw [hpd]
                  intro heq
                  exact hdist x hx8 j hj2 h512 hj3 (by omega) (by omega))]
              rw [show (((x : Nat) : Int)).toNat = x from rfl]
              rw [idx2blk_in_range sbs fsb (direct.getD x 0) (hvalid x hx8 h512).1
                (hvalid x hx8 h512).2, block_modify_read]
              rw [hpd]
              split_ifs with hm
              · rw [show (((512 * x : Nat) : Int)).toNat = 512 * x from rfl, sub_zero]
                rw [show (((p % 512 : Nat) : Int)).toNat = p % 512 from rfl, getD_drop]
                have hfin : 512 * x + p % 512 = p := by omega
                rw [hfin]
              · exact absurd ⟨rfl, by omega, by omega⟩ hm
          · intro b o hb
            rw [ihf b o (fun j hj1 hj2 hj3 => hb j (by omega) hj2 hj3)]
            rw [show (((x : Nat) : Int)).toNat = x from rfl]
            rw [idx2blk_in_range sbs fsb (direct.getD x 0) (hvalid x hx8 h512).1
              (hvalid x hx8 h512).2, block_modify_read]
            split_ifs with hm
            · exact absurd hm.1 (hb x (le_refl x) hx8 h512)
            · rfl
      · rw [if_neg hx0] at hDW
        by_cases hlast : ((x : Nat) : Int) + 1 = ((n / 512 : Nat) : Int) + 1
        · rw [if_pos hlast, sub_zero] at hDW
          have hf : fuel = 0 := by omega
          subst hf
          simp only [db_write_loop] at hDW
          rw [Prod.mk.injEq] at hDW
          obtain ⟨hD, hW⟩ := hDW
          subst hD
          subst hW
          refine ⟨by omega, ?_, ?_⟩
          · intro p hp1 hp2
            rw [show (((x : Nat) : Int)).toNat = x from rfl]
            rw [idx2blk_in_range sbs fsb (direct.getD x 0) (hvalid x hx8 h512).1
              (hvalid x hx8 h512).2, block_modify_read]
            have hpd : p / 512 = x := by omega
            rw [hpd]
            split_ifs with hm
            · rw [show (((512 * x : Nat) : Int)).toNat = 512 * x from rfl, sub_zero]
              rw [show (((p % 512 : Nat) : Int)).toNat = p % 512 from rfl, getD_drop]
              have hfin : 512 * x + p % 512 = p := by omega
              rw [hfin]
            · exact absurd ⟨rfl, by omega, by omega⟩ hm
          · intro b o hb
            rw [show (((x : Nat) : Int)).toNat = x from rfl]
            rw [idx2blk_in_range sbs fsb (direct.getD x 0) (hvalid x hx8 h512).1
              (hvalid x hx8 h512).2, block_modify_read]
            split_ifs with hm
            · exact absurd hm.1 (hb x (le_refl x) hx8 h512)
            · rfl
        · rw [if_neg hlast] at hDW
          rw [show ((x : Nat) : Int) + 1 = (((x + 1 : Nat)) : Int) from by push_cast; ring,
            show ((512 * x : Nat) : Int) + 512
              = (((512 * (x + 1) : Nat)) : Int) from by push_cast; ring] at hDW
          obtain ⟨ihc, ihp, ihf⟩ := ih (x + 1) _ _ _ (by omega) (by omega) rfl rfl D W hDW
          refine ⟨ihc, ?_, ?_⟩
          · intro p hp1 hp2
            by_cases hpx : 512 * (x + 1) ≤ p
            · exact ihp p hpx hp2
            · have hpd : p / 512 = x := by omega
              rw [ihf (sbs + 2 + 32 + direct.getD (p / 512) 0) ((p % 512 : Nat) : Int)
                (fun j hj1 hj2 hj3 => by
                  rw [hpd]
                  intro heq
                  exact hdist x hx8 j hj2 h512 hj3 (by omega) (by omega))]
              rw [show (((x : Nat) : Int)).toNat = x from rfl]
              rw [idx2blk_in_range sbs fsb (direct.getD x 0) (hvalid x hx8 h512).1
                (hvalid x hx8 h512).2, block_modify_read]
              rw [hpd]
              split_ifs with hm
              · rw [show (((512 * x : Nat) : Int)).toNat = 512 * x from rfl, sub_zero]
                rw [show (((p % 512 : Nat) : Int)).toNat = p % 512 from rfl, getD_drop]
                have hfin : 512 * x + p % 512 = p := by omega
                rw [hfin]
              · exact absurd ⟨rfl, by omega, by omega⟩ hm
          · intro b o hb
            rw [ihf b o (fun j hj1 hj2 hj3 => hb j (by omega) hj2 hj3)]
            rw [show (((x : Nat) : Int)).toNat = x from rfl]
            rw [idx2blk_in_range sbs fsb (direct.getD x 0) (hvalid x hx8 h512).1
              (hvalid x hx8 h512).2, block_modify_read]
            split_ifs with hm
            · exact absurd hm.1 (hb x (le_refl x) hx8 h512)
            · rfl
    · rw [if_neg hcond] at hDW
      have hxn : 512 * x = n := by omega
      rw [Prod.mk.injEq] at hDW
      obtain ⟨hD, hW⟩ := hDW
      subst hD
      subst hW
      refine ⟨by omega, ?_, ?_⟩
      · intro p hp1 hp2
        exact absurd hp2 (by omega)
      · intro b o hb
        rfl

/-- A full or final-partial block read from a disk holding the buffer
bytes at their write positions equals the matching slice of the buffer. -/
theorem read_chunk_slice (d : Int → Int → Nat) (sbs : Int) (direct : List Int)
    (buf : List Nat) (n x c : Nat) (hc : c ≤ 512) (hcn : 512 * x + c ≤ n)
    (hlen : n ≤ buf.length)
    (hd : ∀ p : Nat, p < n →
      d (sbs + 2 + 32 + direct.getD (p / 512) 0) ((p % 512 : Nat) : Int)
        = buf.getD p 0)
    (len : Int) (hlen2 : len.toNat = c) :
    block_read_part d (sbs + 2 + 32 + direct.getD x 0) 0 len
      = ((buf.take n).drop (512 * x)).take c := by
  rw [block_read_part, hlen2]
  apply List.ext_getElem
  · simp [List.length_take, List.length_drop]
    omega
  · intro i h1 h2
    have hi : i < c := by simpa using h1
    rw [List.getElem_map, List.getElem_range]
    rw [List.getElem_take, List.getElem_drop, List.getElem_take]
    have hp : 512 * x + i < n := by omega
    have hq1 : (512 * x + i) / 512 = x := by omega
    have hq2 : (512 * x + i) % 512 = i := by omega
    have hdd := hd (512 * x + i) hp
    rw [hq1, hq2] at hdd
    rw [zero_add, hdd]
    rw [List.getD_eq_getElem?_getD, List.getElem?_eq_getElem (by omega)]
    rfl

/-- The db_read block loop entered at block x with rd = 512 * x, start
position 0 and n bytes to read, over in-range direct slots and a disk
holding the n buffer bytes at their data-block positions: it returns the
buffer slice from 512 * x appended to the caller's bytes and the
count n. -/
theorem db_read_loop_zero (sbs fsb : Int) (direct : List Int) (buf : List Nat)
    (n : Nat) (hn : n ≤ 4096) (hlen : n ≤ buf.length)
    (hvalid : ∀ j : Nat, j < 8 → 512 * j < n →
      0 ≤ direct.getD j 0 ∧ direct.getD j 0 ≤ fsb - 32 - 2 - 1)
    (d : Int → Int → Nat)
    (hd : ∀ p : Nat, p < n →
      d (sbs + 2 + 32 + direct.getD (p / 512) 0) ((p % 512 : Nat) : Int)
        = buf.getD p 0) :
    ∀ (fuel x : Nat) (acc : List Nat) (xI rdI : Int),
      fuel + x = n / 512 + 1 → 512 * x ≤ n →
      xI = ((x : Nat) : Int) → rdI = ((512 * x : Nat) : Int) →
      db_read_loop sbs fsb direct 0 ((n : Nat) : Int) 0 (((n / 512 : Nat) : Int) + 1)
        ((n : Nat) : Int) d fuel xI rdI acc
        = (acc ++ (buf.take n).drop (512 * x), ((n : Nat) : Int)) := by
  intro fuel
  induction fuel with
  | zero =>
    intro x acc xI rdI hfuel hx512 hxI hrdI
    exact absurd hx512 (by omega)
  | succ fuel ih =>
    intro x acc xI rdI hfuel hx512 hxI hrdI
    subst hxI
    subst hrdI
    simp only [db_read_loop]
    by_cases hcond : (((x : Nat) : Int) < ((n / 512 : Nat) : Int) + 1 ∧
        ((512 * x : Nat) : Int) + 0 < ((n : Nat) : Int))
    · rw [if_pos hcond]
      have h512 : 512 * x < n := by omega
      have hx8 : x < 8 := by omega
      by_cases hx0 : ((x : Nat) : Int) = 0
      · have hx0' : x = 0 := by omega
        subst hx0'
        rw [if_pos hx0]
        by_cases hlast : (((0 : Nat) : Nat) : Int) + 1 = ((n / 512 : Nat) : Int) + 1
        · rw [if_pos hlast, show Int.tmod 0 512 = 0 from rfl, sub_zero]
          rw [show ((((0 : Nat) : Nat) : Int)).toNat = 0 from rfl]
          rw [idx2blk_in_range sbs fsb (direct.getD 0 0)
            (hvalid 0 (by omega) (by omega)).1 (hvalid 0 (by omega) (by omega)).2]
          rw [read_chunk_slice d sbs direct buf n 0 n (by omega) (by omega) hlen hd
            ((n : Nat) : Int) (by omega)]
          have hf : fuel = 0 := by omega
          subst hf
          simp only [db_read_loop]
          rw [Prod.mk.injEq]
          constructor
          · rw [List.take_of_length_le (by simp [List.length_take, List.length_drop]; try omega)]
          · omega
        · rw [if_neg hlast, show Int.tmod 0 512 = 0 from rfl, sub_zero]
          rw [show ((((0 : Nat) : Nat) : Int)).toNat = 0 from rfl]
          rw [idx2blk_in_range sbs fsb (direct.getD 0 0)
            (hvalid 0 (by omega) (by omega)).1 (hvalid 0 (by omega) (by omega)).2]
          rw [read_chunk_slice d sbs direct buf n 0 512 (by omega) (by omega) hlen hd
            (512 : Int) (by omega)]
          rw [show (((0 : Nat) : Int)) + 1 = (((0 + 1 : Nat)) : Int) from by push_cast; try ring,
            show ((512 * 0 : Nat) : Int) + 512
              = (((512 * (0 + 1) : Nat)) : Int) from by push_cast; try ring]
          rw [ih (0 + 1) _ _ _ (by omega) (by omega) rfl rfl]
          rw [Prod.mk.injEq]
          refine ⟨?_, rfl⟩
          rw [List.append_assoc]
          congr 1
          rw [show 512 * (0 + 1) = 512 * 0 + 512 from by ring]
          rw [← List.drop_drop]
          exact List.take_append_drop 512 _
      · rw [if_neg hx0]
        by_cases hlast : ((x : Nat) : Int) + 1 = ((n / 512 : Nat) : Int) + 1
        · rw [if_pos hlast, sub_zero]
          rw [show (((x : Nat) : Int)).toNat = x from rfl]
          rw [idx2blk_in_range sbs fsb (direct.getD x 0) (hvalid x hx8 h512).1
            (hvalid x hx8 h512).2]
          rw [read_chunk_slice d sbs direct buf n x (n - 512 * x) (by omega) (by omega)
            hlen hd (((n : Nat) : Int) - ((512 * x : Nat) : Int)) (by omega)]
          have hf : fuel = 0 := by omega
          subst hf
          simp only [db_read_loop]
          rw [Prod.mk.injEq]
          constructor
          · rw [List.take_of_length_le (by simp [List.length_take, List.length_drop]; try omega)]
          · omega
        · rw [if_neg hlast]
          rw [show (((x : Nat) : Int)).toNat = x from rfl]
          rw [idx2blk_in_range sbs fsb (direct.getD x 0) (hvalid x hx8 h512).1
            (hvalid x hx8 h512).2]
          rw [read_chunk_slice d sbs direct buf n x 512 (by omega) (by omega) hlen hd
            (512 : Int) (by omega)]
          rw [show ((x : Nat) : Int) + 1 = (((x + 1 : Nat)) : Int) from by push_cast; ring,
            show ((512 * x : Nat) : Int) + 512
              = (((512 * (x + 1) : Nat)) : Int) from by push_cast; ring]
          rw [ih (x + 1) _ _ _ (by omega) (by omega) rfl rfl]
          rw [Prod.mk.injEq]
          refine ⟨?_, rfl⟩
          rw [List.append_assoc]
          congr 1
          rw [show 512 * (x + 1) = 512 * x + 512 from by ring]
          rw [← List.drop_drop]
          exact List.take_append_drop 512 _
    · rw [if_neg hcond]
      have hxn : 512 * x = n := by omega
      rw [Prod.mk.injEq]
      constructor
      · rw [List.drop_eq_nil_of_le (by simp [List.length_take]; omega), List.append_nil]
      · omega

/-- fs_lseek with SEEK_CUR from pos 0 by an offset within the file size:
the offset is stored as the new pos and nothing else changes. -/
theorem fs_lseek_cur_ok (ser : disk_inode → List Nat) (fd off : Int) (t : FsState)
    (hmode : (t.filedes fd).mode = MODE_RDWR)
    (hp : (t.inodes ((t.filedes fd).idx)).pos = 0)
    (hsz : off ≤ (t.inodes ((t.filedes fd).idx)).d_inode.size) :
    fs_lseek ser fd off SEEK_CUR t
      = ({ t with inodes := fun j => if j = (t.filedes fd).idx then
          { t.inodes j with pos := off } else t.inodes j }, FSE_OK) := by
  rw [fs_lseek_cur_eq ser fd off t (by rw [hmode]; decide)]
  rw [hp, add_zero]
  exact fs_lseek_setpos_within ser fd off off t hsz

/-- fs_lseek with SEEK_SET to position 0 on a file of nonnegative size:
pos becomes 0 and nothing else changes. -/
theorem fs_lseek_set_ok (ser : disk_inode → List Nat) (fd : Int) (t : FsState)
    (hmode : (t.filedes fd).mode = MODE_RDWR)
    (hsz : 0 ≤ (t.inodes ((t.filedes fd).idx)).d_inode.size) :
    fs_lseek ser fd 0 SEEK_SET t
      = ({ t with inodes := fun j => if j = (t.filedes fd).idx then
          { t.inodes j with pos := 0 } else t.inodes j }, FSE_OK) := by
  rw [fs_lseek_set_eq ser fd 0 t (by rw [hmode]; decide)]
  exact fs_lseek_setpos_within ser fd 0 0 t hsz

/-- fs_write of n bytes at pos 0 on any read-write file whose resize to
n succeeds and whose post-resize direct slots are in range and pairwise
distinct on the accessed blocks: it returns n, advances pos to n, stores
size n, keeps the post-resize direct slots, and places byte p of the
buffer at byte p % 512 of disk block sbs + 34 + direct slot p / 512,
preserving the descriptor table and the bookkeeping fields. -/
theorem fs_write_ok (ser : disk_inode → List Nat) (fd : Int) (s : FsState)
    (buf : List Nat) (n : Nat) (hbuf : n ≤ 4096)
    (hmode : (s.filedes fd).mode = MODE_RDWR)
    (hpos : (s.inodes ((s.filedes fd).idx)).pos = 0)
    (hmaxn : ((n : Nat) : Int) ≤ s.super.max_filesize)
    (hok : (resize_inode ser ((s.filedes fd).idx) ((n : Nat) : Int) s).2 = FSE_OK)
    (hvalid : ∀ j : Nat, j < 8 → 512 * j < n →
      0 ≤ ((resize_inode ser ((s.filedes fd).idx) ((n : Nat) : Int) s).1.inodes
          ((s.filedes fd).idx)).d_inode.direct.getD j 0 ∧
        ((resize_inode ser ((s.filedes fd).idx) ((n : Nat) : Int) s).1.inodes
          ((s.filedes fd).idx)).d_inode.direct.getD j 0 ≤ s.fs_blocks - 32 - 2 - 1)
    (hdist : ∀ j : Nat, j < 8 → ∀ k : Nat, k < 8 → 512 * j < n → 512 * k < n →
      j ≠ k →
      ((resize_inode ser ((s.filedes fd).idx) ((n : Nat) : Int) s).1.inodes
          ((s.filedes fd).idx)).d_inode.direct.getD j 0
        ≠ ((resize_inode ser ((s.filedes fd).idx) ((n : Nat) : Int) s).1.inodes
          ((s.filedes fd).idx)).d_inode.direct.getD k 0) :
    ∃ t : FsState,
      fs_write ser fd buf ((n : Nat) : Int) s = (t, ((n : Nat) : Int)) ∧
      t.filedes = s.filedes ∧ t.sbs = s.sbs ∧ t.fs_blocks = s.fs_blocks ∧
      (t.inodes ((s.filedes fd).idx)).pos = ((n : Nat) : Int) ∧
      (t.inodes ((s.filedes fd).idx)).d_inode.size = ((n : Nat) : Int) ∧
      (t.inodes ((s.filedes fd).idx)).d_inode.direct
        = ((resize_inode ser ((s.filedes fd).idx) ((n : Nat) : Int) s).1.inodes
          ((s.filedes fd).idx)).d_inode.direct ∧
      (∀ p : Nat, p < n →
        t.disk (s.sbs + 2 + 32
            + ((resize_inode ser ((s.filedes fd).idx) ((n : Nat) : Int) s).1.inodes
              ((s.filedes fd).idx)).d_inode.direct.getD (p / 512) 0)
          ((p % 512 : Nat) : Int) = buf.getD p 0) := by
  obtain ⟨hsize, hposr, hsbs, hfsb2, hsuper, hfdes⟩ :=
    resize_inode_ok_facts ser ((s.filedes fd).idx) ((n : Nat) : Int) s hok
  obtain ⟨hw2, hwp, hwf⟩ := db_write_loop_zero s.sbs s.fs_blocks
    ((resize_inode ser ((s.filedes fd).idx) ((n : Nat) : Int) s).1.inodes
      ((s.filedes fd).idx)).d_inode.direct buf n hbuf hvalid hdist
    ((((n / 512 : Nat) : Int) + 1 - 0).toNat) 0
    (resize_inode ser ((s.filedes fd).idx) ((n : Nat) : Int) s).1.disk
    0 0 (by omega) (by omega) (by omega) (by omega) _ _ Prod.mk.eta.symm
  have hmc : ¬ ((s.filedes fd).mode &&& (MODE_WRONLY ||| MODE_RDWR) = 0) := by
    rw [hmode]; decide
  have hclamp : ¬ (s.super.max_filesize < ((n : Nat) : Int)) := by omega
  have hn0 : ¬ (((n : Nat) : Int) < 0) := by omega
  have hne : ¬ (FSE_OK ≠ FSE_OK) := fun h => h rfl
  have hpz : ((resize_inode ser ((s.filedes fd).idx) ((n : Nat) : Int) s).1.inodes
      ((s.filedes fd).idx)).pos = 0 := by rw [hposr]; exact hpos
  have hsz : ((n : Nat) : Int) ≤ ((resize_inode ser ((s.filedes fd).idx)
      ((n : Nat) : Int) s).1.inodes ((s.filedes fd).idx)).d_inode.size :=
    le_of_eq hsize.symm
  simp only [fs_write, db_write]
  rw [if_neg hmc, hpos, add_zero]
  rw [show Int.tdiv (0 : Int) 512 = 0 from rfl]
  rw [show Int.tdiv ((n : Nat) : Int) 512 = ((n / 512 : Nat) : Int) from rfl]
  rw [if_neg hclamp]
  rw [hok]
  rw [if_neg hne]
  dsimp only
  rw [hsbs, hfsb2, hsize, hsuper, hfdes]
  rw [hw2]
  rw [if_neg hn0]
  rw [fs_lseek_cur_ok ser fd ((n : Nat) : Int)
    ({ disk := (db_write_loop s.sbs s.fs_blocks
          ((resize_inode ser ((s.filedes fd).idx) ((n : Nat) : Int) s).1.inodes
            ((s.filedes fd).idx)).d_inode.direct buf 0 ((n : Nat) : Int) 0
          (((n / 512 : Nat) : Int) + 1) ((n : Nat) : Int)
          ((((n / 512 : Nat) : Int) + 1 - 0).toNat) 0 0
          (resize_inode ser ((s.filedes fd).idx) ((n : Nat) : Int) s).1.disk).1,
       inodes := (resize_inode ser ((s.filedes fd).idx) ((n : Nat) : Int) s).1.inodes,
       inode_bmap :=
         (resize_inode ser ((s.filedes fd).idx) ((n : Nat) : Int) s).1.inode_bmap,
       dblk_bmap :=
         (resize_inode ser ((s.filedes fd).idx) ((n : Nat) : Int) s).1.dblk_bmap,
       super := s.super,
       sbs := s.sbs,
       fs_blocks := s.fs_blocks,
       filedes := s.filedes } : FsState)
    hmode hpz hsz]
  dsimp only
  rw [if_neg hne]
  refine ⟨_, rfl, rfl, rfl, rfl, ?_, ?_, ?_, ?_⟩
  · dsimp only
    rw [if_pos rfl]
  · dsimp only
    rw [if_pos rfl]
    exact hsize
  · dsimp only
    rw [if_pos rfl]
  · intro p hp
    exact hwp p (by omega) hp

/-- fs_read of the full n-byte file from pos 0 when the disk holds the
buffer bytes at the file's data-block positions: it returns n and stores
exactly the buffer into the caller's bytes. -/
theorem fs_read_full (ser : disk_inode → List Nat) (fd : Int) (t : FsState)
    (buf : List Nat) (n : Nat) (dl : List Int)
    (hbn : buf.length = n) (hbuf : n ≤ 4096)
    (hdl : (t.inodes ((t.filedes fd).idx)).d_inode.direct = dl)
    (hmode : (t.filedes fd).mode = MODE_RDWR)
    (hpos : (t.inodes ((t.filedes fd).idx)).pos = 0)
    (hsize : (t.inodes ((t.filedes fd).idx)).d_inode.size = ((n : Nat) : Int))
    (hvalid : ∀ j : Nat, j < 8 → 512 * j < n →
      0 ≤ dl.getD j 0 ∧ dl.getD j 0 ≤ t.fs_blocks - 32 - 2 - 1)
    (hdisk : ∀ p : Nat, p < n →
      t.disk (t.sbs + 2 + 32 + dl.getD (p / 512) 0) ((p % 512 : Nat) : Int)
        = buf.getD p 0) :
    (fs_read ser fd ((n : Nat) : Int) t).2.1 = ((n : Nat) : Int) ∧
    (fs_read ser fd ((n : Nat) : Int) t).2.2 = buf := by
  have hmc : ¬ ((t.filedes fd).mode &&& (MODE_RDONLY ||| MODE_RDWR) = 0) := by
    rw [hmode]; decide
  have hnn : ¬ (((n : Nat) : Int) < ((n : Nat) : Int)) := by omega
  have hn0 : ¬ (((n : Nat) : Int) < 0) := by omega
  have hne : ¬ (FSE_OK ≠ FSE_OK) := fun h => h rfl
  have hloop := db_read_loop_zero t.sbs t.fs_blocks dl buf n hbuf (by omega) hvalid
    t.disk hdisk ((((n / 512 : Nat) : Int) + 1 - 0).toNat) 0 [] 0 0
    (by omega) (by omega) (by omega) (by omega)
  simp only [fs_read, db_read]
  rw [if_neg hmc, hpos, add_zero, hsize]
  rw [if_neg hnn]
  rw [show Int.tdiv (0 : Int) 512 = 0 from rfl]
  rw [show Int.tdiv ((n : Nat) : Int) 512 = ((n / 512 : Nat) : Int) from rfl]
  rw [if_neg hn0]
  rw [hdl]
  rw [hloop]
  dsimp only
  rw [if_neg hn0]
  rw [fs_lseek_cur_ok ser fd ((n : Nat) : Int) t hmode hpos (le_of_eq hsize.symm)]
  dsimp only
  rw [if_neg hne]
  constructor
  · rfl
  · show [] ++ (buf.take n).drop (512 * 0) = buf
    rw [List.nil_append, show (512 * 0 : Nat) = 0 from rfl, List.drop_zero,
      List.take_of_length_le (by omega)]

/-- Claim C1: for every descriptor open with MODE_RDWR on a file at
position 0 and every buffer of length n at most max_filesize, if the
resize performed by the write succeeds (there is space) and the file's
data-block pointers after it are in range and pairwise distinct — as
they are for every file of a consistent filesystem, empty or not, with
any bitmap occupancy — then fs_write(fd, buf, n), fs_lseek(fd, 0,
SEEK_SET), fs_read(fd, buf2, n) returns n, FSE_OK and n, and stores
into buf2 exactly the bytes of buf. -/
theorem C1_write_lseek_read_roundtrip
    (ser : disk_inode → List Nat) (fd : Int) (s : FsState) (buf : List Nat)
    (hmode : (s.filedes fd).mode = MODE_RDWR)
    (hpos : (s.inodes ((s.filedes fd).idx)).pos = 0)
    (hbuf : ((buf.length : Nat) : Int) ≤ s.super.max_filesize)
    (hmax4 : s.super.max_filesize ≤ 4096)
    (hok : (resize_inode ser ((s.filedes fd).idx) ((buf.length : Nat) : Int) s).2
      = FSE_OK)
    (hvalid : ∀ j : Nat, j < 8 → 512 * j < buf.length →
      0 ≤ ((resize_inode ser ((s.filedes fd).idx) ((buf.length : Nat) : Int) s).1.inodes
          ((s.filedes fd).idx)).d_inode.direct.getD j 0 ∧
        ((resize_inode ser ((s.filedes fd).idx) ((buf.length : Nat) : Int) s).1.inodes
          ((s.filedes fd).idx)).d_inode.direct.getD j 0 ≤ s.fs_blocks - 32 - 2 - 1)
    (hdist : ∀ j : Nat, j < 8 → ∀ k : Nat, k < 8 → 512 * j < buf.length →
      512 * k < buf.length → j ≠ k →
      ((resize_inode ser ((s.filedes fd).idx) ((buf.length : Nat) : Int) s).1.inodes
          ((s.filedes fd).idx)).d_inode.direct.getD j 0
        ≠ ((resize_inode ser ((s.filedes fd).idx) ((buf.length : Nat) : Int) s).1.inodes
          ((s.filedes fd).idx)).d_inode.direct.getD k 0) :
    (fs_write ser fd buf ((buf.length : Nat) : Int) s).2 = ((buf.length : Nat) : Int) ∧
    (fs_lseek ser fd 0 SEEK_SET
        (fs_write ser fd buf ((buf.length : Nat) : Int) s).1).2 = FSE_OK ∧
    (fs_read ser fd ((buf.length : Nat) : Int)
        (fs_lseek ser fd 0 SEEK_SET
          (fs_write ser fd buf ((buf.length : Nat) : Int) s).1).1).2.1
      = ((buf.length : Nat) : Int) ∧
    (fs_read ser fd ((buf.length : Nat) : Int)
        (fs_lseek ser fd 0 SEEK_SET
          (fs_write ser fd buf ((buf.length : Nat) : Int) s).1).1).2.2
      = buf := by
  obtain ⟨t1, ht1, h1fd, h1sbs, h1fsb, h1pos, h1size, h1dir, h1disk⟩ :=
    fs_write_ok ser fd s buf buf.length (by omega) hmode hpos hbuf hok hvalid hdist
  rw [ht1]
  dsimp only
  rw [fs_lseek_set_ok ser fd t1 (by rw [h1fd]; exact hmode)
    (by rw [h1fd, h1size]; omega)]
  dsimp only
  have h3 := fs_read_full ser fd
    ({ t1 with inodes := fun j => if j = (t1.filedes fd).idx then
        { t1.inodes j with pos := 0 } else t1.inodes j }) buf buf.length
    ((resize_inode ser ((s.filedes fd).idx) ((buf.length : Nat) : Int) s).1.inodes
      ((s.filedes fd).idx)).d_inode.direct
    rfl (by omega)
    (by dsimp only; rw [h1fd]; rw [if_pos rfl]; exact h1dir)
    (by dsimp only; rw [h1fd]; exact hmode)
    (by dsimp only; rw [h1fd]; rw [if_pos rfl])
    (by dsimp only; rw [h1fd]; rw [if_pos rfl]; exact h1size)
    (by intro j hj hlt; dsimp only; rw [h1fsb]; exact hvalid j hj hlt)
    (by intro p hp; dsimp only; rw [h1sbs]; exact h1disk p hp)
  refine ⟨rfl, rfl, ?_, ?_⟩
  · exact h3.1
  · exact h3.2

set_option maxRecDepth 8192 in
/-- Concrete instance of claim C1 on a filesystem whose data bitmap is
partly used and whose open file is non-empty (one byte in data block 1,
data block 0 taken by another file): the write succeeds without touching
the foreign block and the three bytes come back unchanged. -/
theorem C1_write_lseek_read_roundtrip_witness :
    (resize_inode ser0 ((sampleFs2.filedes 0).idx)
        ((List.length [7, 8, 9] : Nat) : Int) sampleFs2).2 = FSE_OK ∧
    (fs_read ser0 0 ((List.length [7, 8, 9] : Nat) : Int) (fs_lseek ser0 0 0 SEEK_SET
        (fs_write ser0 0 [7, 8, 9] ((List.length [7, 8, 9] : Nat) : Int)
          sampleFs2).1).1).2.2 = [7, 8, 9] :=
  ⟨by decide, (C1_write_lseek_read_roundtrip ser0 0 sampleFs2 [7, 8, 9]
      rfl rfl (by decide) (by decide) (by decide) (by decide)
      (fun j hj k hk hjlt hklt hne =>
        absurd (show j = k from by
          have hl3 : [7, 8, 9].length = 3 := rfl
          omega) hne)).2.2.2⟩

end KernelSamples
